import Mathlib

/-!
Verification of the signing-clients manifest/signature core
(signing_clients/apps.py): the manifest text grammar (parse and
serialize), the entry-ordering key, the digest-collection engine and the
signed-archive assembly checks.

Modelling conventions.  Python 2 byte strings are modelled as lists of
characters (`Str`), one character per byte; raw digest values are lists
of naturals (`Bytes`).  The md5/sha1 primitives from hashlib are external
collaborators and appear as parameters (`HashImpl`).  base64, fnmatch and
os.path are modelled from their documented CPython 2 behaviour on POSIX
(details at each definition).
-/

abbrev Str := List Char

abbrev Bytes := List Nat

/-- Byte-string view of a Lean string literal. -/
def str (s : String) : Str := s.data

/-- The characters stripped by Python str.rstrip with no argument and
matched by the regex class \s : space, tab, newline, carriage return,
vertical tab, form feed. -/
def pyIsSpaceB (c : Char) : Bool :=
  c = ' ' || c = '\t' || c = '\n' || c = '\r' || c = Char.ofNat 11 || c = Char.ofNat 12

/-- Python str.rstrip(): remove trailing whitespace. -/
def rstrip (s : Str) : Str :=
  (s.reverse.dropWhile pyIsSpaceB).reverse

/-- ASCII lower-casing of one byte, the effect of Python 2 str.lower in
the default C locale. -/
def pyLower (c : Char) : Char :=
  if 'A' ≤ c ∧ c ≤ 'Z' then Char.ofNat (c.toNat + 32) else c

/-- Python 2 str.lower over a whole byte string. -/
def pyLowerStr (s : Str) : Str := s.map pyLower

/-- The test of directory_re, the regex [\\/]$ : does the value end in a
path separator. -/
def endsInSep (s : Str) : Bool :=
  match s.getLast? with
  | some '/' => true
  | some '\\' => true
  | _ => false

/-- file.readlines() of a cStringIO buffer: split into lines, each line
keeping its terminating newline; a final fragment without a newline is a
line of its own; the empty buffer has no lines. -/
def pyReadlines : Str → List Str
  | [] => []
  | c :: t =>
    if c = '\n' then [ '\n' ] :: pyReadlines t
    else
      match pyReadlines t with
      | [] => [[c]]
      | l :: ls => (c :: l) :: ls

/-- The base64 alphabet, character of a 6-bit value. -/
def b64chr (n : Nat) : Char :=
  if n < 26 then Char.ofNat (65 + n)
  else if n < 52 then Char.ofNat (97 + (n - 26))
  else if n < 62 then Char.ofNat (48 + (n - 52))
  else if n = 62 then '+' else '/'

/-- base64.b64encode over raw bytes. -/
def b64encode : Bytes → Str
  | [] => []
  | [a] => [b64chr (a / 4), b64chr (a % 4 * 16), '=', '=']
  | [a, b] => [b64chr (a / 4), b64chr (a % 4 * 16 + b / 16), b64chr (b % 16 * 4), '=']
  | a :: b :: c :: t =>
    b64chr (a / 4) :: b64chr (a % 4 * 16 + b / 16) :: b64chr (b % 16 * 4 + c / 64) ::
      b64chr (c % 64) :: b64encode t

/-- 6-bit value of a base64 alphabet character, none for every other
character. -/
def b64val (c : Char) : Option Nat :=
  if 'A' ≤ c ∧ c ≤ 'Z' then some (c.toNat - 65)
  else if 'a' ≤ c ∧ c ≤ 'z' then some (c.toNat - 97 + 26)
  else if '0' ≤ c ∧ c ≤ '9' then some (c.toNat - 48 + 52)
  else if c = '+' then some 62
  else if c = '/' then some 63
  else none

/-- Lookahead used by CPython 2 binascii for a pad character in quad
position two: is the next significant character also a pad. -/
def nextValidIsPad : Str → Bool
  | [] => false
  | c :: t =>
    if (b64val c).isSome then false
    else if c = '=' then true
    else nextValidIsPad t

/-- The bit accumulator of CPython 2 binascii.a2b_base64: characters
outside the alphabet are ignored, a pad character in quad position two
(followed by another pad) or three ends the input, and input ending in
the middle of a quad is an incorrect-padding error (none). -/
def a2bAux : Str → Nat → Nat → Nat → Bytes → Option Bytes
  | [], _, nbits, _, out => if nbits = 0 then some out else none
  | c :: t, qp, nbits, acc, out =>
    match b64val c with
    | some v =>
      let acc2 := acc * 64 + v
      let nb2 := nbits + 6
      if 8 ≤ nb2 then
        a2bAux t ((qp + 1) % 4) (nb2 - 8) (acc2 % 2 ^ (nb2 - 8)) (out ++ [acc2 / 2 ^ (nb2 - 8)])
      else a2bAux t ((qp + 1) % 4) nb2 acc2 out
    | none =>
      if c = '=' then
        if qp = 2 then (if nextValidIsPad t then some out else a2bAux t qp nbits acc out)
        else if qp = 3 then some out
        else a2bAux t qp nbits acc out
      else a2bAux t qp nbits acc out

/-- base64.b64decode as in Python 2 (lenient binascii decoder). -/
def pyB64decode (s : Str) : Option Bytes := a2bAux s 0 0 0 []

/-- A digest mapping, algorithm name to raw digest bytes.  In the source
this is a Python dict; throughout the program its keys are always among
md5 and sha1 (the header regex admits only MD5/SHA1 digest headers and
_digest produces exactly these two), so it is represented as a record of
two optional entries, with the key md5 sorting before sha1 as in the
sorted key iteration of Section.__str__. -/
structure DigRec where
  md5 : Option Bytes
  sha1 : Option Bytes
  deriving DecidableEq

/-- Write one key of a digest dict, dict[key] = value for key md5 or
sha1 (the only keys that ever occur, see DigRec). -/
def setDig (d : DigRec) (key : Str) (v : Bytes) : DigRec :=
  if key = str "md5" then { md5 := some v, sha1 := d.sha1 }
  else if key = str "sha1" then { md5 := d.md5, sha1 := some v }
  else d

/-- The Section object: one named digest record. -/
structure PySection where
  name : Str
  algos : List Str
  digests : DigRec
  deriving DecidableEq

/-- The " MD5 SHA1" tail of the Digest-Algorithms line: one leading
space plus the upper-cased algorithm name for each key of the digests
dict in sorted order (Section.__str__). -/
def algosLine (d : DigRec) : Str :=
  (match d.md5 with
   | some _ => str " MD5"
   | none => []) ++
  (match d.sha1 with
   | some _ => str " SHA1"
   | none => [])

/-- The per-algorithm digest lines of Section.__str__, one
"ALGO-Digest: base64\n" line per key of the digests dict in sorted
order. -/
def digestLines (d : DigRec) : Str :=
  (match d.md5 with
   | some b => str "MD5-Digest: " ++ b64encode b ++ [ '\n' ]
   | none => []) ++
  (match d.sha1 with
   | some b => str "SHA1-Digest: " ++ b64encode b ++ [ '\n' ]
   | none => [])

/-- Worker for the 72-byte slicing of the wrapping loop of
Section.__str__: k is the remaining capacity of the current slice and
cur the (reversed) slice being accumulated. -/
def chunksGo : Nat → Str → Str → List Str
  | _, cur, [] => if cur = [] then [] else [cur.reverse]
  | k, cur, c :: t =>
    if k = 0 then cur.reverse :: chunksGo 71 [c] t
    else chunksGo (k - 1) (c :: cur) t

/-- The 72-byte slices taken by the wrapping loop of Section.__str__
(name[:72], name[72:], repeatedly); the empty string has no slices. -/
def chunks72 (s : Str) : List Str := chunksGo 72 [] s

/-- Section.__str__: the wrapped "Name: " line (72-byte slices, each
continuation prefixed by a newline and one space), the Digest-Algorithms
line, then the digest lines.  The unicode branch (utf-8 encoding) is the
identity here because names are modelled as byte strings, as Python 2
str values are. -/
def sectionStr (s : PySection) : Str :=
  List.intercalate (str "\n ") (chunks72 (str "Name: " ++ s.name)) ++ [ '\n' ] ++
    str "Digest-Algorithms:" ++ algosLine s.digests ++ [ '\n' ] ++
    digestLines s.digests

/-- "\n".join(...) over byte strings. -/
def pyJoinNl (xs : List Str) : Str := List.intercalate [ '\n' ] xs

/-- Manifest.body: the section texts joined by a newline (each section
text already ends in a newline, so a blank line separates sections). -/
def manifestBody (secs : List PySection) : Str :=
  pyJoinNl (secs.map sectionStr)

/-- Manifest.__str__: the version header, a blank line, the body, and an
optional extra trailing newline. -/
def manifestStr (secs : List PySection) (extraNewline : Bool) : Str :=
  pyJoinNl ([str "Manifest-Version: 1.0", [], manifestBody secs] ++
    (if extraNewline then [[]] else []))

/-- The x-Digest-Manifest header lines of Signature.header, one per key
of digest_manifests in sorted order. -/
def digestManifestLines (d : DigRec) : List Str :=
  (match d.md5 with
   | some b => [str "MD5-Digest-Manifest: " ++ b64encode b]
   | none => []) ++
  (match d.sha1 with
   | some b => [str "SHA1-Digest-Manifest: " ++ b64encode b]
   | none => [])

/-- Signature.header: the version line, the digest-manifest lines, and
an empty segment when extra_newline is set, joined by newlines. -/
def signatureHeader (dm : DigRec) (extraNewline : Bool) : Str :=
  pyJoinNl ([str "Signature-Version: 1.0"] ++ digestManifestLines dm ++
    (if extraNewline then [[]] else []))

/-- Signature.__str__: only the header plus a newline when
omit_individual_sections is set, otherwise the Manifest serialization
built from the Signature header. -/
def signatureStr (secs : List PySection) (dm : DigRec) (omitSections : Bool)
    (extraNewline : Bool) : Str :=
  if omitSections then signatureHeader dm extraNewline ++ [ '\n' ]
  else pyJoinNl ([signatureHeader dm extraNewline, [], manifestBody secs] ++
    (if extraNewline then [[]] else []))

/-- Case-insensitive literal-prefix match: consume the characters of the
(lower-case) pattern against the lower-cased input, returning the rest
of the input. -/
def icPrefix : Str → Str → Option Str
  | [], s => some s
  | _ :: _, [] => none
  | p :: pt, c :: ct => if pyLower c = p then icPrefix pt ct else none

/-- One alternative of headers_re: the header name (case-insensitively),
then \s*, then a colon, then \s*, then the value (group 2).  Returns the
lower-cased header name (group(1).lower()) and the value. -/
def tryH (pat : Str) (l : Str) : Option (Str × Str) :=
  match icPrefix pat l with
  | none => none
  | some rest =>
    match rest.dropWhile pyIsSpaceB with
    | ':' :: r3 => some (pat, r3.dropWhile pyIsSpaceB)
    | _ => none

/-- headers_re.match on a line: the alternatives of the regex
((?:Manifest|Signature)-Version | Name | Digest-Algorithms |
(?:MD5|SHA1)-Digest(?:-Manifest)?)\s*:\s*(.*) tried in the regex
backtracking order (the greedy optional -Manifest first).  At most one
alternative can fully match, so the order is canonical. -/
def matchHeader (l : Str) : Option (Str × Str) :=
  match tryH (str "manifest-version") l with
  | some r => some r
  | none =>
  match tryH (str "signature-version") l with
  | some r => some r
  | none =>
  match tryH (str "name") l with
  | some r => some r
  | none =>
  match tryH (str "digest-algorithms") l with
  | some r => some r
  | none =>
  match tryH (str "md5-digest-manifest") l with
  | some r => some r
  | none =>
  match tryH (str "md5-digest") l with
  | some r => some r
  | none =>
  match tryH (str "sha1-digest-manifest") l with
  | some r => some r
  | none => tryH (str "sha1-digest") l

/-- Does the byte string end with the given suffix (Python s[-k:] == t
checks). -/
def strEndsWith (s suffix : Str) : Bool :=
  List.isPrefixOf suffix.reverse s.reverse

/-- Python 2 re.split with the pattern \s* (empty matches are skipped in
Python 2, so this splits on maximal runs of whitespace, with an empty
piece at an end that begins or ends with whitespace).  The flag records
whether the scan is inside a whitespace run. -/
def pySplitWsGo (inRun : Bool) (cur : Str) : Str → List Str
  | [] => if inRun then [[]] else [cur.reverse]
  | c :: t =>
    if inRun then
      if pyIsSpaceB c then pySplitWsGo true [] t
      else pySplitWsGo false [c] t
    else
      if pyIsSpaceB c then cur.reverse :: pySplitWsGo true [] t
      else pySplitWsGo false (c :: cur) t

/-- re.split of a Digest-Algorithms value. -/
def pySplitWs (s : Str) : List Str := pySplitWsGo false [] s

/-- The accreting per-section dict `item` of Manifest.parse: its keys
are only ever name, algos and digests; an absent field is an absent
key. -/
structure ItemAcc where
  nameF : Option Str
  algosF : Option (List Str)
  digestsF : Option DigRec
  deriving DecidableEq

/-- The empty dict {}. -/
def itemEmpty : ItemAcc := ⟨none, none, none⟩

/-- Python dict truthiness of `item`: nonempty iff some key is set. -/
def itemNonempty (it : ItemAcc) : Bool :=
  it.nameF.isSome || it.algosF.isSome || it.digestsF.isSome

/-- Section(item.pop(name), **item): the algos default is the tuple
(md5, sha1) and the digests default is the empty dict. -/
def mkSec (nm : Str) (it : ItemAcc) : PySection :=
  ⟨nm, it.algosF.getD [str "md5", str "sha1"], it.digestsF.getD ⟨none, none⟩⟩

/-- The ways Manifest.parse can terminate abnormally: the three
ParsingError raises (line too long, continuation without previous
header, unrecognized line), plus the exceptions that escape from other
statements: KeyError from item[header] += ... when header is not a key
of item (that is, whenever header is not a Name whose value was
retained) and from item.pop(name) when a section accreted data but its
only Name value was a dropped directory name; and the incorrect-padding
TypeError of base64.b64decode. -/
inductive PErr where
  | tooLong (lineno : Nat)
  | contNoHeader (lineno : Nat)
  | unrecognized (line : Str)
  | keyErr
  | b64Err
  deriving DecidableEq

/-- Whether an abnormal termination is one of the ParsingError raises of
Manifest.parse (as opposed to a KeyError or base64 TypeError). -/
def PErr.isParsingError : PErr → Bool
  | tooLong _ => true
  | contNoHeader _ => true
  | unrecognized _ => true
  | _ => false

/-- The loop state of Manifest.parse. -/
structure PState where
  lineno : Nat
  kw : Option DigRec
  items : List PySection
  item : ItemAcc
  header : Str
  deriving DecidableEq

/-- The result of Manifest.parse: the Section list, and the
digest_manifests keyword argument when any x-Digest-Manifest header was
seen (the kwargs dict is nonempty exactly then).  The version attribute
is the class attribute 1.0 and extra_newline is the class default False,
since parse never sets either. -/
structure PManifest where
  sections : List PySection
  digestManifests : Option DigRec
  deriving DecidableEq

/-- The dispatch on a recognized header of Manifest.parse (the elif
chain after headers_re matched): h is the lower-cased header name, v the
value; the loop state has already recorded h as the persistent
header. -/
def parseHeaderLine (st : PState) (n : Nat) (h v : Str) : Except PErr PState :=
  if strEndsWith h (str "-version") then
    .ok ⟨n, st.kw, st.items, st.item, h⟩
  else if strEndsWith h (str "-digest-manifest") then
    match pyB64decode v with
    | none => .error .b64Err
    | some bs =>
      .ok ⟨n, some (setDig (st.kw.getD ⟨none, none⟩) (h.take (h.length - 16)) bs), st.items, st.item, h⟩
  else if h = str "name" then
    if endsInSep v then .ok ⟨n, st.kw, st.items, st.item, h⟩
    else .ok ⟨n, st.kw, st.items, ⟨some v, st.item.algosF, st.item.digestsF⟩, h⟩
  else if h = str "digest-algorithms" then
    .ok ⟨n, st.kw, st.items, ⟨st.item.nameF, some (pySplitWs (pyLowerStr v)), st.item.digestsF⟩, h⟩
  else
    match pyB64decode v with
    | none => .error .b64Err
    | some bs =>
      .ok ⟨n, st.kw, st.items, ⟨st.item.nameF, st.item.algosF, some (setDig (st.item.digestsF.getD ⟨none, none⟩) (h.take (h.length - 7)) bs)⟩, h⟩

/-- One iteration of the line loop of Manifest.parse. -/
def parseLine (st : PState) (raw : Str) : Except PErr PState :=
  let n := st.lineno + 1
  let l := rstrip raw
  if 72 < l.length then .error (.tooLong n)
  else if l = [] then
    if itemNonempty st.item then
      match st.item.nameF with
      | none => .error .keyErr
      | some nm =>
        .ok ⟨n, st.kw, st.items ++ [mkSec nm st.item], itemEmpty, []⟩
    else .ok ⟨n, st.kw, st.items, st.item, []⟩
  else if l.head? = some ' ' then
    if st.header = [] then .error (.contNoHeader n)
    else if st.header = str "name" then
      match st.item.nameF with
      | some nm => .ok ⟨n, st.kw, st.items, ⟨some (nm ++ l.tail), st.item.algosF, st.item.digestsF⟩, st.header⟩
      | none => .error .keyErr
    else .error .keyErr
  else
    match matchHeader l with
    | none => .error (.unrecognized l)
    | some (h, v) => parseHeaderLine st n h v

/-- The line loop of Manifest.parse over a list of raw lines. -/
def parseLines (st : PState) : List Str → Except PErr PState
  | [] => .ok st
  | l :: ls =>
    match parseLine st l with
    | .error e => .error e
    | .ok st2 => parseLines st2 ls

/-- The initial loop state. -/
def initPState : PState := ⟨0, none, [], itemEmpty, []⟩

/-- The raw line sequence Manifest.parse iterates over: the readlines of
the buffer chained with the two characters of the string of two
newlines. -/
def parseInputLines (buf : Str) : List Str :=
  pyReadlines buf ++ [[ '\n' ], [ '\n' ]]

/-- Manifest.parse over a byte-string buffer. -/
def manifestParse (buf : Str) : Except PErr PManifest :=
  match parseLines initPState (parseInputLines buf) with
  | .error e => .error e
  | .ok st => .ok ⟨st.items, st.kw⟩

/-- str() of a Manifest returned by Manifest.parse (extra_newline is the
class default False and digest_manifests is ignored by
Manifest.__str__). -/
def pManifestStr (p : PManifest) : Str := manifestStr p.sections false

/-- Does the given test accept the string or any of its suffixes (the
search that the regex .* of a translated * performs). -/
def globSuffix (f : Str → Bool) : Str → Bool
  | [] => f []
  | c :: st => f (c :: st) || globSuffix f st

/-- Glob matching as in fnmatch for patterns built from literals, * and
? (the five fixed denylist patterns contain no bracket expressions); *
matches any sequence of characters, including path separators. -/
def globMatch : Str → Str → Bool
  | [], s => decide (s = [])
  | p :: pt, s =>
    if p = '*' then globSuffix (globMatch pt) s
    else
      match s with
      | [] => false
      | c :: st => (if p = '?' then true else decide (p = c)) && globMatch pt st

/-- fnmatch.fnmatch on POSIX: os.path.normcase is the identity there, so
matching is case-sensitive. -/
def pyFnmatch (name pat : Str) : Bool := globMatch pat name

/-- ignore_certain_metainf_files: is the file name one of the signature
artifacts disposed of to prevent multiple signatures. -/
def ignore_certain_metainf_files (filename : Str) : Bool :=
  [str "META-INF/manifest.mf",
   str "META-INF/*.sf",
   str "META-INF/*.rsa",
   str "META-INF/*.dsa",
   str "META-INF/ids.json"].any (fun g => pyFnmatch filename g)

/-- os.path.split on POSIX: split at the final slash; the head keeps no
trailing slashes unless it consists only of slashes. -/
def posixSplit (p : Str) : Str × Str :=
  let tail := (p.reverse.takeWhile (fun c => c ≠ '/')).reverse
  let head := p.take (p.length - tail.length)
  if head ≠ [] && head.any (fun c => c ≠ '/') then
    ((head.reverse.dropWhile (fun c => c = '/')).reverse, tail)
  else (head, tail)

/-- The priority class assigned by file_key to an entry name. -/
def filePrio (name : Str) : Nat :=
  if name = str "install.rdf" then 1
  else if name = str "chrome.manifest" ∨ name = str "icon.png" ∨ name = str "icon64.png" then 2
  else if name = str "MPL" ∨ name = str "GPL" ∨ name = str "LGPL" ∨ name = str "COPYING"
      ∨ name = str "LICENSE" ∨ name = str "license.txt" then 5
  else 4

/-- file_key: the sort key string "%d-%s-%s" % (prio, head, tail) where
(head, tail) = os.path.split(name.lower()); the priorities are single
decimal digits. -/
def file_key (name : Str) : Str :=
  [Char.ofNat (48 + filePrio name)] ++ [ '-' ] ++
    (posixSplit (pyLowerStr name)).1 ++ [ '-' ] ++ (posixSplit (pyLowerStr name)).2

/-- Python 2 byte-string comparison a < b: lexicographic by byte. -/
def strLt : Str → Str → Bool
  | [], [] => false
  | [], _ :: _ => true
  | _ :: _, [] => false
  | a :: s, b :: t => if a = b then strLt s t else decide (a < b)

/-- Insert into a list sorted by file_key, after any entry with an equal
key (the stability of Python sorted). -/
def insByFileKey (x : Str × Str) : List (Str × Str) → List (Str × Str)
  | [] => [x]
  | y :: t => if strLt (file_key x.1) (file_key y.1) then x :: y :: t else y :: insByFileKey x t

/-- sorted(filelist, key=file_key): a stable sort by the file_key
string. -/
def sortByFileKey (l : List (Str × Str)) : List (Str × Str) :=
  l.foldr insByFileKey []

/-- The md5/sha1 primitives of hashlib, external collaborators of this
core, as an abstract parameter. -/
structure HashImpl where
  md5 : Str → Bytes
  sha1 : Str → Bytes

/-- _digest(data): the dict of both raw digests of a byte buffer. -/
def pyDigest (H : HashImpl) (data : Str) : DigRec :=
  ⟨some (H.md5 data), some (H.sha1 data)⟩

/-- mksection inside JarExtractor.__init__: a Section whose algos are
the keys of the digest dict (always md5 and sha1) and whose digests are
the digests of the data. -/
def mksection (H : HashImpl) (data : Str) (fname : Str) : PySection :=
  ⟨fname, [str "md5", str "sha1"], pyDigest H data⟩

/-- The Section list accumulated eagerly by JarExtractor.__init__: the
archive entries sorted by file_key, directory pseudo-entries and
denylisted signature artifacts skipped, one Section per surviving entry,
plus a final META-INF/ids.json Section when a (truthy, hence nonempty)
ids payload was supplied.  An archive entry is a pair of name and
content bytes. -/
def jarSections (H : HashImpl) (files : List (Str × Str)) (ids : Option Str) :
    List PySection :=
  ((sortByFileKey files).filter
      (fun f => !(endsInSep f.1 || ignore_certain_metainf_files f.1))).map
    (fun f => mksection H f.2 f.1) ++
  (match ids with
   | some b => if b = [] then [] else [mksection H b (str "META-INF/ids.json")]
   | none => [])

/-- JarExtractor._sign: a Section named like the given one whose digests
are the digests of the serialized text of the given Section. -/
def jarSign (H : HashImpl) (item : PySection) : PySection :=
  ⟨item.name, [str "md5", str "sha1"], pyDigest H (sectionStr item)⟩

/-- The JarExtractor.manifest property as text. -/
def jarManifestStr (H : HashImpl) (files : List (Str × Str)) (ids : Option Str)
    (extraNewlines : Bool) : Str :=
  manifestStr (jarSections H files ids) extraNewlines

/-- The Section list of the JarExtractor.signatures property. -/
def jarSignatureSections (H : HashImpl) (files : List (Str × Str)) (ids : Option Str) :
    List PySection :=
  (jarSections H files ids).map (jarSign H)

/-- The digest_manifests of the JarExtractor.signatures property: the
digest dict of the entire serialized manifest text. -/
def jarDigestManifests (H : HashImpl) (files : List (Str × Str)) (ids : Option Str)
    (extraNewlines : Bool) : DigRec :=
  pyDigest H (jarManifestStr H files ids extraNewlines)

/-- os.path.basename on POSIX: everything after the final slash. -/
def posixBasename (p : Str) : Str :=
  (p.reverse.takeWhile (fun c => c ≠ '/')).reverse

/-- The root part of os.path.splitext: strip the extension beginning at
the final dot, unless every character before that dot (within the
basename) is itself a dot. -/
def splitextRoot (p : Str) : Str :=
  let base := posixBasename p
  let ext := (base.reverse.takeWhile (fun c => c ≠ '.')).reverse
  if ext.length = base.length then p
  else
    let stem := base.take (base.length - ext.length - 1)
    if stem.all (fun c => c = '.') then p
    else p.take (p.length - ext.length - 1)

/-- The failure modes of make_signed: the two IOError raises.  Both are
raised before the output archive is opened, so on error nothing is
written. -/
inductive SignErr where
  | noOutput
  | alreadyExists
  deriving DecidableEq

/-- JarExtractor.make_signed, returning the ordered (name, content)
writes of the output archive on success.  fsExists models
os.path.exists.  entryOrder models sorted(zin.infolist()): zipfile
ZipInfo objects define no comparison, so CPython 2 orders them by
memory address; the resulting permutation is implementation-defined and
is therefore a parameter here.  sigpath is the caller-supplied name (the
default path through signature.filename would raise AttributeError on a
byte-string signature and is not modelled). -/
def make_signed (fsExists : Str → Bool) (entryOrder : List (Str × Str) → List (Str × Str))
    (H : HashImpl) (files : List (Str × Str)) (ids : Option Str)
    (omitSections : Bool) (extraNewlines : Bool) (storedOutpath : Str)
    (signature : Str) (outpathArg : Str) (sigpath : Str) :
    Except SignErr (List (Str × Str)) :=
  let outpath := if outpathArg = [] then storedOutpath else outpathArg
  if outpath = [] then .error .noOutput
  else if fsExists outpath then .error .alreadyExists
  else
    let sp := str "META-INF/" ++ splitextRoot (posixBasename sigpath)
    .ok ([(sp ++ str ".rsa", signature)] ++
      ((entryOrder files).filter (fun f => !ignore_certain_metainf_files f.1)) ++
      [(str "META-INF/manifest.mf", jarManifestStr H files ids extraNewlines),
       (sp ++ str ".sf",
        signatureStr (jarSignatureSections H files ids)
          (jarDigestManifests H files ids extraNewlines) omitSections extraNewlines)] ++
      (match ids with
       | some b => [(str "META-INF/ids.json", b)]
       | none => []))

/-- Canonical form of a Section name for the round-trip theorem: the
name is nonempty, short enough that the "Name: " line needs no wrapping,
has no newline, does not begin or end with whitespace, and does not end
in a path separator. -/
def canonName (n : Str) : Bool :=
  match n with
  | [] => false
  | c :: _ =>
    !pyIsSpaceB c &&
    (match n.getLast? with
     | some d => !pyIsSpaceB d && decide (d ≠ '/') && decide (d ≠ '\\')
     | none => false) &&
    decide (n.length ≤ 66) && n.all (fun c2 => decide (c2 ≠ '\n'))

/-- Canonical form of one digest entry: absent, or a nonempty value of
genuine bytes short enough that its digest line stays within 72
characters (an md5 digest has 16 bytes and a sha1 digest 20). -/
def canonDigVal : Option Bytes → Bool
  | none => true
  | some b => !decide (b = []) && b.all (fun x => decide (x < 256)) && decide (b.length ≤ 42)

/-- Canonical form of a whole Section. -/
def canonSection (s : PySection) : Bool :=
  canonName s.name && canonDigVal s.digests.md5 && canonDigVal s.digests.sha1

/-- The algos tuple Manifest.parse reconstructs from the serialized
Digest-Algorithms line of a section: re.split of the lower-cased
value. -/
def parsedAlgos (d : DigRec) : List Str :=
  match d.md5, d.sha1 with
  | some _, some _ => [str "md5", str "sha1"]
  | some _, none => [str "md5"]
  | none, some _ => [str "sha1"]
  | none, none => [[]]

/-- A Section as it comes back from parsing its own serialization: the
name and digests survive, the algos field is rebuilt from the
Digest-Algorithms line. -/
def normSec (s : PySection) : PySection :=
  ⟨s.name, parsedAlgos s.digests, s.digests⟩

/-- The n-th raw line (1-based, as in the lineno counter of
Manifest.parse) of the line sequence the parser iterates over. -/
def nthRawLine (buf : Str) (n : Nat) : Str :=
  (parseInputLines buf).getD (n - 1) []

/-- The individual digest lines of a section as a list of raw lines. -/
def digestLinesList (d : DigRec) : List Str :=
  (match d.md5 with
   | some b => [str "MD5-Digest: " ++ b64encode b ++ [ '\n' ]]
   | none => []) ++
  (match d.sha1 with
   | some b => [str "SHA1-Digest: " ++ b64encode b ++ [ '\n' ]]
   | none => [])

/-- The raw lines of the serialized text of a section whose name needs
no wrapping. -/
def sectionLines (s : PySection) : List Str :=
  [str "Name: " ++ s.name ++ [ '\n' ],
   str "Digest-Algorithms:" ++ algosLine s.digests ++ [ '\n' ]] ++
  digestLinesList s.digests

/-- A concrete hash collaborator used to instantiate theorems at
concrete inputs. -/
def hashZero : HashImpl := ⟨fun _ => [0], fun _ => [1]⟩

/-! Theorems. -/

/-- C10: Section serialization is determined by the name and the digests
mapping alone; the algorithms field is never read by Section.__str__,
whose Digest-Algorithms line and digest lines both come from the sorted
keys of the digests mapping. -/
theorem c10_serialization_ignores_algos (name : Str) (algos1 algos2 : List Str)
    (d : DigRec) :
    sectionStr ⟨name, algos1, d⟩ = sectionStr ⟨name, algos2, d⟩ := rfl

/-- C1 counterexample: the text "Manifest-Version: 2.0\n" is parsed by
Manifest.parse without any error, but serializing the result yields
"Manifest-Version: 1.0\n\n", not the original text: the version value is
not retained and the round-trip fails. -/
theorem c1_counterexample :
    manifestParse (str "Manifest-Version: 2.0\n") = .ok ⟨[], none⟩ ∧
      pManifestStr ⟨[], none⟩ ≠ str "Manifest-Version: 2.0\n" := by
  constructor
  · rfl
  · decide

/-- C2 failing input, evaluated: for a Section whose name has 138 bytes,
Section.__str__ emits a second physical line of 73 characters (one
continuation space plus a full 72-byte slice), and Manifest.parse
rejects the serialized manifest with ParsingError line too long at line
4 instead of reconstructing the name. -/
theorem c2_wrap_overflow :
    (pyReadlines (sectionStr ⟨List.replicate 138 'a', [str "md5", str "sha1"], ⟨none, none⟩⟩)).map
        (fun l => (rstrip l).length) = [72, 73, 18] ∧
      manifestParse
        (manifestStr [⟨List.replicate 138 'a', [str "md5", str "sha1"], ⟨none, none⟩⟩] false) =
        .error (.tooLong 4) := by
  constructor
  · rfl
  · rfl

/-- C3 counterexample: this input contains a line of 80 characters, yet
Manifest.parse does not raise ParsingError: the continuation of the
Digest-Algorithms header on line 2 hits item[header] += ... with a key
that is not in item, raising KeyError before the long line is
reached. -/
theorem c3_counterexample :
    ((parseInputLines (str "Digest-Algorithms: MD5\n SHA1\n" ++ List.replicate 80 '!' ++ [ '\n' ])).any
        (fun l => decide (72 < (rstrip l).length)) = true) ∧
      manifestParse (str "Digest-Algorithms: MD5\n SHA1\n" ++ List.replicate 80 '!' ++ [ '\n' ]) =
        .error .keyErr ∧
      PErr.keyErr.isParsingError = false := by
  refine ⟨?_, ?_, rfl⟩
  · decide
  · rfl

/-- C7 counterexample: the upper-cased entry name META-INF/MANIFEST.MF
matches the denylist pattern META-INF/manifest.mf case-insensitively,
but fnmatch on POSIX is case-sensitive, so the entry is not excluded and
a Section with that name appears in the manifest. -/
theorem c7_counterexample :
    pyFnmatch (pyLowerStr (str "META-INF/MANIFEST.MF")) (pyLowerStr (str "META-INF/manifest.mf")) = true ∧
      ignore_certain_metainf_files (str "META-INF/MANIFEST.MF") = false ∧
      (jarSections hashZero [(str "META-INF/MANIFEST.MF", [])] none).map PySection.name =
        [str "META-INF/MANIFEST.MF"] := by
  refine ⟨by decide, by decide, rfl⟩

/-- C8 counterexample: a section whose Name value ends in a path
separator and which also carries a Digest-Algorithms header makes
Manifest.parse raise KeyError (item.pop of the absent name key at the
end of the section), so the directory Name is not silently dropped on
every such input. -/
theorem c8_counterexample :
    manifestParse (str "Name: foo/\nDigest-Algorithms: MD5 SHA1\n") = .error .keyErr := by
  rfl

/-- C5: each Section of the signatures property has the name of the
corresponding accumulated manifest Section and carries the digests of
the serialized text of that Section (not of the original file bytes),
and digest_manifests is the digest set of the entire serialized manifest
text. -/
theorem c5_signatures_digest_of_sections (H : HashImpl) (files : List (Str × Str))
    (ids : Option Str) (extraNewlines : Bool) :
    (∀ i : Nat, ((jarSignatureSections H files ids)[i]?).map PySection.name =
        ((jarSections H files ids)[i]?).map PySection.name) ∧
    (∀ i : Nat, ((jarSignatureSections H files ids)[i]?).map PySection.digests =
        ((jarSections H files ids)[i]?).map (fun s => pyDigest H (sectionStr s))) ∧
    jarDigestManifests H files ids extraNewlines =
      pyDigest H (manifestStr (jarSections H files ids) extraNewlines) := by
  refine ⟨fun i => ?_, fun i => ?_, rfl⟩ <;>
  · rw [jarSignatureSections, List.getElem?_map]
    cases (jarSections H files ids)[i]? <;> rfl

/-- C9: make_signed fails with an error when no output path is in effect
or when a file already exists at the output path, and on error no output
is produced (the write list exists only in the success case, and the
checks precede the opening of the output archive). -/
theorem c9_make_signed_output_conflicts (fsExists : Str → Bool)
    (entryOrder : List (Str × Str) → List (Str × Str)) (H : HashImpl)
    (files : List (Str × Str)) (ids : Option Str) (omitSections extraNewlines : Bool)
    (storedOutpath signature outpathArg sigpath : Str) :
    ((if outpathArg = [] then storedOutpath else outpathArg) = [] →
      make_signed fsExists entryOrder H files ids omitSections extraNewlines
        storedOutpath signature outpathArg sigpath = .error .noOutput) ∧
    (∀ p : Str, (if outpathArg = [] then storedOutpath else outpathArg) = p → p ≠ [] →
      fsExists p = true →
      make_signed fsExists entryOrder H files ids omitSections extraNewlines
        storedOutpath signature outpathArg sigpath = .error .alreadyExists) ∧
    (∀ e : SignErr,
      make_signed fsExists entryOrder H files ids omitSections extraNewlines
        storedOutpath signature outpathArg sigpath = .error e →
      ∀ ws : List (Str × Str),
        make_signed fsExists entryOrder H files ids omitSections extraNewlines
          storedOutpath signature outpathArg sigpath ≠ .ok ws) := by
  refine ⟨fun h => ?_, fun p hp hne hex => ?_, fun e he ws hw => ?_⟩
  · simp [make_signed, h]
  · subst hp
    simp [make_signed, hne, hex]
  · rw [he] at hw
    exact Except.noConfusion hw

/-- C9 witness: with an existing file at the output path the call fails
with the already-exists error. -/
theorem c9_make_signed_output_conflicts_witness :
    make_signed (fun _ => true) id hashZero [] none true false [] [] (str "out.zip")
      (str "zigbert") = .error .alreadyExists :=
  (c9_make_signed_output_conflicts (fun _ => true) id hashZero [] none true false
      [] [] (str "out.zip") (str "zigbert")).2.1 (str "out.zip") (by decide) (by decide) rfl

/-- C6 counterexample: the separator - of file_key does not sort below
every path character: for the entries x (empty directory part) and !d/a
(nonempty directory part), both of priority 4, the key of !d/a sorts
before the key of x, so at equal priority the empty directory part does
not sort before every nonempty one, and the digest engine accordingly
orders !d/a first. -/
theorem c6_counterexample :
    filePrio (str "x") = 4 ∧ filePrio (str "!d/a") = 4 ∧
      (posixSplit (pyLowerStr (str "x"))).1 = [] ∧
      (posixSplit (pyLowerStr (str "!d/a"))).1 = str "!d" ∧
      strLt (file_key (str "!d/a")) (file_key (str "x")) = true ∧
      (jarSections hashZero [(str "x", []), (str "!d/a", [])] none).map PySection.name =
        [str "!d/a", str "x"] := by
  refine ⟨rfl, rfl, rfl, rfl, by decide, rfl⟩

/-- The byte-wise comparison of Python 2 strings ignores an equal
prefix. -/
theorem strLt_append_left (a x y : Str) : strLt (a ++ x) (a ++ y) = strLt x y := by
  induction a with
  | nil => rfl
  | cons c a ih => simp [strLt, ih]

/-- C6 amended: the composite file_key is the priority digit and the
lower-cased directory and basename parts joined by -, compared
byte-wise; the separator sorts below every path character greater than
the byte 0x2D (in particular all alphanumerics, dot, slash and
underscore), so at equal priority an entry with an empty directory part
sorts before one whose directory part starts with such a character; and
for the entries install.rdf, chrome.manifest, readme.txt and LICENSE the
produced Section order is exactly install.rdf, chrome.manifest,
readme.txt, LICENSE. -/
theorem c6_ordering_amended :
    (∀ n1 n2 : Str, ∀ c : Char, ∀ t : Str,
      filePrio n1 = filePrio n2 →
      (posixSplit (pyLowerStr n1)).1 = [] →
      (posixSplit (pyLowerStr n2)).1 = c :: t →
      '-' < c →
      strLt (file_key n1) (file_key n2) = true) ∧
    (∀ H : HashImpl,
      (jarSections H [(str "LICENSE", []), (str "readme.txt", []),
          (str "install.rdf", []), (str "chrome.manifest", [])] none).map PySection.name =
        [str "install.rdf", str "chrome.manifest", str "readme.txt", str "LICENSE"]) := by
  constructor
  · intro n1 n2 c t hp h1 h2 hc
    rw [file_key, file_key, h1, h2, hp]
    simp only [List.cons_append, List.nil_append, List.append_assoc]
    simp only [strLt, if_pos rfl]
    rw [if_neg (ne_of_lt hc)]
    exact decide_eq_true hc
  · intro H
    rfl

/-- C6 amended witness: at equal priority, the empty directory part of x
sorts before the directory part 0d of 0d/a, whose first byte is above
the separator. -/
theorem c6_ordering_amended_witness :
    strLt (file_key (str "x")) (file_key (str "0d/a")) = true :=
  c6_ordering_amended.1 (str "x") (str "0d/a") '0' (str "d") rfl rfl rfl (by decide)

/-- rstrip removes a trailing newline. -/
theorem rstrip_append_nl (s : Str) : rstrip (s ++ [ '\n' ]) = rstrip s := by
  simp [rstrip, List.dropWhile, pyIsSpaceB]

/-- rstrip is the identity on a string whose last character is not
whitespace. -/
theorem rstrip_eq_self_of_getLast (s : Str) (c : Char) (h : s.getLast? = some c)
    (hc : pyIsSpaceB c = false) : rstrip s = s := by
  have hrev : s.reverse.head? = some c := by
    rw [List.head?_reverse]
    exact h
  cases hr : s.reverse with
  | nil => simp [hr] at hrev
  | cons a t =>
    rw [hr] at hrev
    have : a = c := by
      simpa using hrev
    subst this
    have : s = (a :: t).reverse := by
      rw [← hr, List.reverse_reverse]
    rw [rstrip, hr, List.dropWhile_cons, hc]
    simpa using this.symm

/-- rstrip of a blank line. -/
theorem rstrip_nl : rstrip [ '\n' ] = [] := rfl

/-- readlines splits off a newline-terminated first line. -/
theorem pyReadlines_cons_line (l rest : Str) (h : '\n' ∉ l) :
    pyReadlines (l ++ '\n' :: rest) = (l ++ [ '\n' ]) :: pyReadlines rest := by
  induction l with
  | nil => simp [pyReadlines]
  | cons c t ih =>
    have hc : ¬(c = '\n') := fun e => h (by simp [e])
    have ht : '\n' ∉ t := fun e => h (by simp [e])
    simp only [List.cons_append, pyReadlines, if_neg hc, List.append_eq, ih ht]

/-- dropWhile of a string ending in a non-dropped character still ends
in that character. -/
theorem getLast?_dropWhile_concat (w : Str) (c : Char) (hc : pyIsSpaceB c = false) :
    (List.dropWhile pyIsSpaceB (w ++ [c])).getLast? = some c := by
  induction w with
  | nil => simp [List.dropWhile, hc]
  | cons a t ih =>
    by_cases ha : pyIsSpaceB a
    · simpa [List.dropWhile_cons, ha] using ih
    · rw [List.cons_append, List.dropWhile_cons, if_neg (by simp [ha])]
      rw [List.getLast?_cons, List.getLast?_concat]
      rfl

/-- The alphabet table inverts the alphabet map. -/
theorem b64val_b64chr : ∀ n < 64, b64val (b64chr n) = some n := by decide

/-- No alphabet character is whitespace. -/
theorem b64chr_not_space : ∀ n < 64, pyIsSpaceB (b64chr n) = false := by decide

/-- Every character emitted by b64encode over genuine bytes is an
alphabet character or the pad. -/
theorem b64encode_chars : ∀ (d : Bytes), (∀ x ∈ d, x < 256) →
    ∀ c ∈ b64encode d, (∃ n, n < 64 ∧ c = b64chr n) ∨ c = '='
  | [], _, c, hc => by simp [b64encode] at hc
  | [a], hv, c, hc => by
    have ha : a < 256 := hv a (by simp)
    simp only [b64encode, List.mem_cons, List.not_mem_nil, or_false] at hc
    rcases hc with h | h | h | h
    · exact Or.inl ⟨a / 4, by omega, h⟩
    · exact Or.inl ⟨a % 4 * 16, by omega, h⟩
    · exact Or.inr h
    · exact Or.inr h
  | [a, b], hv, c, hc => by
    have ha : a < 256 := hv a (by simp)
    have hb : b < 256 := hv b (by simp)
    simp only [b64encode, List.mem_cons, List.not_mem_nil, or_false] at hc
    rcases hc with h | h | h | h
    · exact Or.inl ⟨a / 4, by omega, h⟩
    · exact Or.inl ⟨a % 4 * 16 + b / 16, by omega, h⟩
    · exact Or.inl ⟨b % 16 * 4, by omega, h⟩
    · exact Or.inr h
  | a :: b :: c0 :: t, hv, c, hc => by
    have ha : a < 256 := hv a (by simp)
    have hb : b < 256 := hv b (by simp)
    have hc0 : c0 < 256 := hv c0 (by simp)
    simp only [b64encode, List.mem_cons] at hc
    rcases hc with h | h | h | h | h
    · exact Or.inl ⟨a / 4, by omega, h⟩
    · exact Or.inl ⟨a % 4 * 16 + b / 16, by omega, h⟩
    · exact Or.inl ⟨b % 16 * 4 + c0 / 64, by omega, h⟩
    · exact Or.inl ⟨c0 % 64, by omega, h⟩
    · exact b64encode_chars t (fun x hx => hv x (by simp [hx])) c h

/-- The length of a base64 encoding. -/
theorem b64encode_length : ∀ d : Bytes, (b64encode d).length = 4 * ((d.length + 2) / 3)
  | [] => by simp [b64encode]
  | [a] => by simp [b64encode]
  | [a, b] => by simp [b64encode]
  | a :: b :: c :: t => by
    simp only [b64encode, List.length_cons, b64encode_length t]
    omega

/-- A base64 encoding never starts with whitespace. -/
theorem dropWhile_b64encode (d : Bytes) (hv : ∀ x ∈ d, x < 256) :
    List.dropWhile pyIsSpaceB (b64encode d) = b64encode d := by
  cases he : b64encode d with
  | nil => rfl
  | cons c t =>
    have hcm : c ∈ b64encode d := by
      rw [he]
      simp
    have hns : pyIsSpaceB c = false := by
      rcases b64encode_chars d hv c hcm with ⟨n, hn, rfl⟩ | rfl
      · exact b64chr_not_space n hn
      · decide
    rw [List.dropWhile_cons, hns]
    simp

/-- A base64 encoding of a nonempty byte list is nonempty. -/
theorem b64encode_ne_nil : ∀ d : Bytes, d ≠ [] → b64encode d ≠ []
  | [], h => absurd rfl h
  | [_], _ => by simp [b64encode]
  | [_, _], _ => by simp [b64encode]
  | _ :: _ :: _ :: _, _ => by simp [b64encode]

/-- A base64 encoding never ends with whitespace. -/
theorem b64encode_getLast_not_space (d : Bytes) (hv : ∀ x ∈ d, x < 256)
    (hne : b64encode d ≠ []) :
    ∃ c, (b64encode d).getLast? = some c ∧ pyIsSpaceB c = false := by
  cases hg : (b64encode d).getLast? with
  | none => exact absurd (List.getLast?_eq_none_iff.1 hg) hne
  | some c =>
    refine ⟨c, rfl, ?_⟩
    obtain ⟨hne2, heq⟩ := List.mem_getLast?_eq_getLast (Option.mem_def.2 hg)
    have hcm : c ∈ b64encode d := heq ▸ List.getLast_mem hne2
    rcases b64encode_chars d hv c hcm with ⟨n, hn, rfl⟩ | rfl
    · exact b64chr_not_space n hn
    · decide

/-- Decoder step on an alphabet character with an empty bit buffer. -/
theorem a2b_step0 (v : Nat) (hv : v < 64) (t : Str) (qp acc : Nat) (out : Bytes) :
    a2bAux (b64chr v :: t) qp 0 acc out = a2bAux t ((qp + 1) % 4) 6 (acc * 64 + v) out := by
  simp [a2bAux, b64val_b64chr v hv]

/-- Decoder step on an alphabet character with six buffered bits. -/
theorem a2b_step6 (v : Nat) (hv : v < 64) (t : Str) (qp acc : Nat) (out : Bytes) :
    a2bAux (b64chr v :: t) qp 6 acc out =
      a2bAux t ((qp + 1) % 4) 4 ((acc * 64 + v) % 16) (out ++ [(acc * 64 + v) / 16]) := by
  simp [a2bAux, b64val_b64chr v hv]

/-- Decoder step on an alphabet character with four buffered bits. -/
theorem a2b_step4 (v : Nat) (hv : v < 64) (t : Str) (qp acc : Nat) (out : Bytes) :
    a2bAux (b64chr v :: t) qp 4 acc out =
      a2bAux t ((qp + 1) % 4) 2 ((acc * 64 + v) % 4) (out ++ [(acc * 64 + v) / 4]) := by
  simp [a2bAux, b64val_b64chr v hv]

/-- Decoder step on an alphabet character with two buffered bits. -/
theorem a2b_step2 (v : Nat) (hv : v < 64) (t : Str) (qp acc : Nat) (out : Bytes) :
    a2bAux (b64chr v :: t) qp 2 acc out =
      a2bAux t ((qp + 1) % 4) 0 0 (out ++ [acc * 64 + v]) := by
  simp [a2bAux, b64val_b64chr v hv, Nat.mod_one]

/-- A double pad in quad position two ends decoding. -/
theorem a2b_pad2 (nbits acc : Nat) (out : Bytes) :
    a2bAux [ '=', '=' ] 2 nbits acc out = some out := rfl

/-- A pad in quad position three ends decoding. -/
theorem a2b_pad3 (nbits acc : Nat) (out : Bytes) :
    a2bAux [ '=' ] 3 nbits acc out = some out := rfl

/-- The decoder inverts the encoder, threading the output
accumulator. -/
theorem a2b_encode : ∀ d : Bytes, (∀ x ∈ d, x < 256) →
    ∀ out : Bytes, a2bAux (b64encode d) 0 0 0 out = some (out ++ d)
  | [], _, out => by simp [b64encode, a2bAux]
  | [a], hv, out => by
    have ha : a < 256 := hv a (by simp)
    rw [show b64encode [a] = b64chr (a / 4) :: b64chr (a % 4 * 16) :: [ '=', '=' ] from rfl]
    rw [a2b_step0 (a / 4) (by omega), a2b_step6 (a % 4 * 16) (by omega), a2b_pad2]
    have h1 : (0 * 64 + a / 4) * 64 + a % 4 * 16 = 16 * a := by omega
    rw [h1]
    have h2 : 16 * a / 16 = a := by omega
    rw [h2]
  | [a, b], hv, out => by
    have ha : a < 256 := hv a (by simp)
    have hb : b < 256 := hv b (by simp)
    rw [show b64encode [a, b] =
      b64chr (a / 4) :: b64chr (a % 4 * 16 + b / 16) :: b64chr (b % 16 * 4) :: [ '=' ] from rfl]
    rw [a2b_step0 (a / 4) (by omega), a2b_step6 (a % 4 * 16 + b / 16) (by omega),
      a2b_step4 (b % 16 * 4) (by omega), a2b_pad3]
    have h1 : (0 * 64 + a / 4) * 64 + (a % 4 * 16 + b / 16) = 16 * a + b / 16 := by omega
    rw [h1]
    have h2 : (16 * a + b / 16) / 16 = a := by omega
    have h3 : (16 * a + b / 16) % 16 * 64 + b % 16 * 4 = 4 * b := by omega
    rw [h2, h3]
    have h4 : 4 * b / 4 = b := by omega
    rw [h4, List.append_assoc]
    rfl
  | a :: b :: c :: t, hv, out => by
    have ha : a < 256 := hv a (by simp)
    have hb : b < 256 := hv b (by simp)
    have hc : c < 256 := hv c (by simp)
    rw [show b64encode (a :: b :: c :: t) =
      b64chr (a / 4) :: b64chr (a % 4 * 16 + b / 16) :: b64chr (b % 16 * 4 + c / 64) ::
        b64chr (c % 64) :: b64encode t from rfl]
    rw [a2b_step0 (a / 4) (by omega), a2b_step6 (a % 4 * 16 + b / 16) (by omega),
      a2b_step4 (b % 16 * 4 + c / 64) (by omega), a2b_step2 (c % 64) (by omega)]
    have h1 : (0 * 64 + a / 4) * 64 + (a % 4 * 16 + b / 16) = 16 * a + b / 16 := by omega
    rw [h1]
    have h2 : (16 * a + b / 16) / 16 = a := by omega
    have h3 : (16 * a + b / 16) % 16 * 64 + (b % 16 * 4 + c / 64) = 4 * b + c / 64 := by omega
    rw [h2, h3]
    have h4 : (4 * b + c / 64) / 4 = b := by omega
    have h5 : (4 * b + c / 64) % 4 * 64 + c % 64 = c := by omega
    rw [h4, h5]
    rw [a2b_encode t (fun x hx => hv x (by simp [hx])) (out ++ [a] ++ [b] ++ [c])]
    simp

/-- base64.b64decode inverts base64.b64encode on genuine byte lists. -/
theorem b64decode_b64encode (d : Bytes) (hv : ∀ x ∈ d, x < 256) :
    pyB64decode (b64encode d) = some d := by
  rw [pyB64decode, a2b_encode d hv []]
  rfl

/-- headers_re on a serialized Name line. -/
theorem matchHeader_name (v : Str) :
    matchHeader (str "Name: " ++ v) = some (str "name", List.dropWhile pyIsSpaceB v) := rfl

/-- headers_re on a serialized Digest-Algorithms line. -/
theorem matchHeader_da (w : Str) :
    matchHeader (str "Digest-Algorithms:" ++ w) =
      some (str "digest-algorithms", List.dropWhile pyIsSpaceB w) := rfl

/-- headers_re on a serialized MD5-Digest line. -/
theorem matchHeader_md5 (w : Str) :
    matchHeader (str "MD5-Digest: " ++ w) =
      some (str "md5-digest", List.dropWhile pyIsSpaceB w) := rfl

/-- headers_re on a serialized SHA1-Digest line. -/
theorem matchHeader_sha1 (w : Str) :
    matchHeader (str "SHA1-Digest: " ++ w) =
      some (str "sha1-digest", List.dropWhile pyIsSpaceB w) := rfl

/-- The version line of a serialized manifest sets the persistent header
and changes nothing else. -/
theorem parseLine_version (st : PState) :
    parseLine st (str "Manifest-Version: 1.0" ++ [ '\n' ]) =
      .ok ⟨st.lineno + 1, st.kw, st.items, st.item, str "manifest-version"⟩ := rfl

/-- A blank line with an empty accreted item just resets the persistent
header. -/
theorem parseLine_blank_empty (st : PState) (h : st.item = itemEmpty) :
    parseLine st [ '\n' ] = .ok ⟨st.lineno + 1, st.kw, st.items, itemEmpty, []⟩ := by
  cases st with
  | mk lineno kw items item header =>
    cases h
    rfl

/-- A blank line with an accreted item holding a name flushes the item
as a Section. -/
theorem parseLine_blank_flush (st : PState) (nm : Str) (h : st.item.nameF = some nm) :
    parseLine st [ '\n' ] =
      .ok ⟨st.lineno + 1, st.kw, st.items ++ [mkSec nm st.item], itemEmpty, []⟩ := by
  cases st with
  | mk lineno kw items item header =>
    cases item with
    | mk nameF algosF digestsF =>
      cases h
      rfl

/-- An ok step lets the line loop continue. -/
theorem parseLines_cons_ok (st st2 : PState) (l : Str) (ls : List Str)
    (h : parseLine st l = .ok st2) :
    parseLines st (l :: ls) = parseLines st2 ls := by
  simp [parseLines, h]

/-- An error step aborts the line loop. -/
theorem parseLines_cons_error (st : PState) (e : PErr) (l : Str) (ls : List Str)
    (h : parseLine st l = .error e) :
    parseLines st (l :: ls) = .error e := by
  simp [parseLines, h]

/-- dropWhile is the identity when the head is not dropped. -/
theorem dropWhile_eq_self_of_head (l : Str) (c : Char) (hh : l.head? = some c)
    (hc : pyIsSpaceB c = false) : List.dropWhile pyIsSpaceB l = l := by
  cases l with
  | nil => rfl
  | cons a t =>
    have : a = c := by simpa using hh
    subst this
    rw [List.dropWhile_cons, hc]
    simp

/-- A string whose last character is neither slash nor backslash does
not end in a path separator. -/
theorem endsInSep_eq_false_of (s : Str) (d : Char) (h : s.getLast? = some d)
    (h1 : d ≠ '/') (h2 : d ≠ '\\') : endsInSep s = false := by
  unfold endsInSep
  rw [h]
  split <;> simp_all

/-- The usable content of the canonical-name predicate. -/
theorem canonName_spec (n : Str) (h : canonName n = true) :
    n ≠ [] ∧ List.dropWhile pyIsSpaceB n = n ∧
      (∃ c, n.getLast? = some c ∧ pyIsSpaceB c = false) ∧
      endsInSep n = false ∧ n.length ≤ 66 ∧ '\n' ∉ n := by
  cases n with
  | nil => simp [canonName] at h
  | cons c t =>
    rw [canonName] at h
    cases hg : (c :: t).getLast? with
    | none => simp at hg
    | some d =>
      rw [hg] at h
      simp only [Bool.and_eq_true, Bool.not_eq_true', decide_eq_true_eq,
        List.all_eq_true, and_assoc] at h
      obtain ⟨hhead, hd1, hd2, hd3, hlen, hnl⟩ := h
      refine ⟨by simp, dropWhile_eq_self_of_head _ c rfl hhead, ⟨d, rfl, hd1⟩,
        endsInSep_eq_false_of _ d hg hd2 hd3, hlen, fun hmem => ?_⟩
      have := hnl '\n' hmem
      simp at this

/-- A short recognized header line dispatches to the header branch of
the loop. -/
theorem parseLine_of_header (st : PState) (l h v : Str)
    (hr : rstrip (l ++ [ '\n' ]) = l)
    (hlen : l.length ≤ 72)
    (hne : l ≠ [])
    (hhead : l.head? ≠ some ' ')
    (hm : matchHeader l = some (h, v)) :
    parseLine st (l ++ [ '\n' ]) = parseHeaderLine st (st.lineno + 1) h v := by
  unfold parseLine
  rw [hr, if_neg (by omega : ¬ 72 < l.length), if_neg hne, if_neg hhead, hm]

/-- The name branch on a non-directory value records the name. -/
theorem parseHeaderLine_name (st : PState) (n : Nat) (v : Str)
    (hsep : endsInSep v = false) :
    parseHeaderLine st n (str "name") v =
      .ok ⟨n, st.kw, st.items, ⟨some v, st.item.algosF, st.item.digestsF⟩, str "name"⟩ := by
  unfold parseHeaderLine
  rw [hsep]
  rfl

/-- The name branch on a value ending in a path separator drops it. -/
theorem parseHeaderLine_name_drop (st : PState) (n : Nat) (v : Str)
    (hsep : endsInSep v = true) :
    parseHeaderLine st n (str "name") v =
      .ok ⟨n, st.kw, st.items, st.item, str "name"⟩ := by
  unfold parseHeaderLine
  rw [hsep]
  rfl

/-- The digest branch for md5 decodes the value into the digest dict. -/
theorem parseHeaderLine_md5 (st : PState) (n : Nat) (v : Str) (bs : Bytes)
    (hd : pyB64decode v = some bs) :
    parseHeaderLine st n (str "md5-digest") v =
      .ok ⟨n, st.kw, st.items,
        ⟨st.item.nameF, st.item.algosF,
         some (setDig (st.item.digestsF.getD ⟨none, none⟩) (str "md5") bs)⟩,
        str "md5-digest"⟩ := by
  unfold parseHeaderLine
  rw [hd]
  rfl

/-- The digest branch for sha1 decodes the value into the digest
dict. -/
theorem parseHeaderLine_sha1 (st : PState) (n : Nat) (v : Str) (bs : Bytes)
    (hd : pyB64decode v = some bs) :
    parseHeaderLine st n (str "sha1-digest") v =
      .ok ⟨n, st.kw, st.items,
        ⟨st.item.nameF, st.item.algosF,
         some (setDig (st.item.digestsF.getD ⟨none, none⟩) (str "sha1") bs)⟩,
        str "sha1-digest"⟩ := by
  unfold parseHeaderLine
  rw [hd]
  rfl

/-- A serialized Name line of a canonical name records exactly that
name. -/
theorem parseLine_nameLine (st : PState) (name : Str) (hc : canonName name = true) :
    parseLine st (str "Name: " ++ name ++ [ '\n' ]) =
      .ok ⟨st.lineno + 1, st.kw, st.items,
        ⟨some name, st.item.algosF, st.item.digestsF⟩, str "name"⟩ := by
  obtain ⟨hne, hdw, ⟨c, hg, hcs⟩, hsep, hlen, _⟩ := canonName_spec name hc
  have hlast : (str "Name: " ++ name).getLast? = some c := by
    rw [List.getLast?_append_of_ne_nil _ hne]
    exact hg
  have hr : rstrip (str "Name: " ++ name ++ [ '\n' ]) = str "Name: " ++ name := by
    rw [rstrip_append_nl]
    exact rstrip_eq_self_of_getLast _ c hlast hcs
  have hlh : (str "Name: " ++ name).length = 6 + name.length := by
    rw [List.length_append]
    rfl
  have hm : matchHeader (str "Name: " ++ name) = some (str "name", name) := by
    rw [matchHeader_name, hdw]
  rw [parseLine_of_header st _ _ _ hr (by omega) (by simp [str]) (by rw [show (str "Name: " ++ name).head? = some 'N' from rfl]; simp) hm]
  exact parseHeaderLine_name st _ name hsep

/-- The Digest-Algorithms line with both keys present. -/
theorem parseLine_da_both (st : PState) :
    parseLine st (str "Digest-Algorithms: MD5 SHA1" ++ [ '\n' ]) =
      .ok ⟨st.lineno + 1, st.kw, st.items,
        ⟨st.item.nameF, some [str "md5", str "sha1"], st.item.digestsF⟩,
        str "digest-algorithms"⟩ := rfl

/-- The Digest-Algorithms line with only md5 present. -/
theorem parseLine_da_md5 (st : PState) :
    parseLine st (str "Digest-Algorithms: MD5" ++ [ '\n' ]) =
      .ok ⟨st.lineno + 1, st.kw, st.items,
        ⟨st.item.nameF, some [str "md5"], st.item.digestsF⟩,
        str "digest-algorithms"⟩ := rfl

/-- The Digest-Algorithms line with only sha1 present. -/
theorem parseLine_da_sha1 (st : PState) :
    parseLine st (str "Digest-Algorithms: SHA1" ++ [ '\n' ]) =
      .ok ⟨st.lineno + 1, st.kw, st.items,
        ⟨st.item.nameF, some [str "sha1"], st.item.digestsF⟩,
        str "digest-algorithms"⟩ := rfl

/-- The Digest-Algorithms line with no keys present. -/
theorem parseLine_da_none (st : PState) :
    parseLine st (str "Digest-Algorithms:" ++ [ '\n' ]) =
      .ok ⟨st.lineno + 1, st.kw, st.items,
        ⟨st.item.nameF, some [[]], st.item.digestsF⟩,
        str "digest-algorithms"⟩ := rfl

/-- Common facts for a serialized digest line over a canonical value. -/
theorem digestLine_facts (pre : Str) (hp : pre ≠ []) (hph : pre.head? ≠ some ' ')
    (b : Bytes) (hv : ∀ x ∈ b, x < 256) (hb : b ≠ []) :
    rstrip (pre ++ b64encode b ++ [ '\n' ]) = pre ++ b64encode b ∧
      (pre ++ b64encode b).length = pre.length + 4 * ((b.length + 2) / 3) ∧
      pre ++ b64encode b ≠ [] ∧ (pre ++ b64encode b).head? ≠ some ' ' := by
  obtain ⟨c, hg, hcs⟩ := b64encode_getLast_not_space b hv (b64encode_ne_nil b hb)
  refine ⟨?_, ?_, ?_, ?_⟩
  · rw [rstrip_append_nl]
    exact rstrip_eq_self_of_getLast _ c
      (by rw [List.getLast?_append_of_ne_nil _ (b64encode_ne_nil b hb)]; exact hg) hcs
  · rw [List.length_append, b64encode_length]
  · simp [hp]
  · cases pre with
    | nil => exact absurd rfl hp
    | cons a t =>
      simpa using hph

/-- A serialized MD5-Digest line of a canonical digest value records
exactly that value. -/
theorem parseLine_md5Line (st : PState) (b : Bytes) (hv : ∀ x ∈ b, x < 256)
    (hb : b ≠ []) (hl : b.length ≤ 42) :
    parseLine st (str "MD5-Digest: " ++ b64encode b ++ [ '\n' ]) =
      .ok ⟨st.lineno + 1, st.kw, st.items,
        ⟨st.item.nameF, st.item.algosF,
         some (setDig (st.item.digestsF.getD ⟨none, none⟩) (str "md5") b)⟩,
        str "md5-digest"⟩ := by
  obtain ⟨hr, hlen, hne, hh⟩ :=
    digestLine_facts (str "MD5-Digest: ") (by decide) (by decide) b hv hb
  have hm : matchHeader (str "MD5-Digest: " ++ b64encode b) =
      some (str "md5-digest", b64encode b) := by
    rw [matchHeader_md5, dropWhile_b64encode b hv]
  rw [parseLine_of_header st _ _ _ hr
    (by rw [hlen, show (str "MD5-Digest: ").length = 12 from rfl]; omega) hne hh hm]
  exact parseHeaderLine_md5 st _ _ b (b64decode_b64encode b hv)

/-- A serialized SHA1-Digest line of a canonical digest value records
exactly that value. -/
theorem parseLine_sha1Line (st : PState) (b : Bytes) (hv : ∀ x ∈ b, x < 256)
    (hb : b ≠ []) (hl : b.length ≤ 42) :
    parseLine st (str "SHA1-Digest: " ++ b64encode b ++ [ '\n' ]) =
      .ok ⟨st.lineno + 1, st.kw, st.items,
        ⟨st.item.nameF, st.item.algosF,
         some (setDig (st.item.digestsF.getD ⟨none, none⟩) (str "sha1") b)⟩,
        str "sha1-digest"⟩ := by
  obtain ⟨hr, hlen, hne, hh⟩ :=
    digestLine_facts (str "SHA1-Digest: ") (by decide) (by decide) b hv hb
  have hm : matchHeader (str "SHA1-Digest: " ++ b64encode b) =
      some (str "sha1-digest", b64encode b) := by
    rw [matchHeader_sha1, dropWhile_b64encode b hv]
  rw [parseLine_of_header st _ _ _ hr
    (by rw [hlen, show (str "SHA1-Digest: ").length = 13 from rfl]; omega) hne hh hm]
  exact parseHeaderLine_sha1 st _ _ b (b64decode_b64encode b hv)

/-- A base64 encoding of genuine bytes contains no newline. -/
theorem noNL_b64encode (b : Bytes) (hv : ∀ x ∈ b, x < 256) : '\n' ∉ b64encode b := by
  intro hmem
  rcases b64encode_chars b hv _ hmem with ⟨n, hn, he⟩ | he
  · have := b64chr_not_space n hn
    rw [← he] at this
    simp [pyIsSpaceB] at this
  · simp at he

/-- Slicing a string that fits inside the remaining capacity yields at
most the one accumulated slice. -/
theorem chunksGo_short : ∀ (t : Str) (k : Nat) (cur : Str), t.length ≤ k →
    chunksGo k cur t = if cur = [] ∧ t = [] then [] else [cur.reverse ++ t]
  | [], k, cur, _ => by
    cases cur <;> simp [chunksGo]
  | c :: t2, k, cur, h => by
    have hk : k ≠ 0 := by
      have := List.length_cons c t2 ▸ h
      omega
    rw [chunksGo, if_neg hk, chunksGo_short t2 (k - 1) (c :: cur)
      (by have := List.length_cons c t2 ▸ h; omega)]
    simp

/-- A string of at most 72 bytes is a single slice. -/
theorem chunks72_short (s : Str) (hne : s ≠ []) (hlen : s.length ≤ 72) :
    chunks72 s = [s] := by
  rw [chunks72, chunksGo_short s 72 [] hlen]
  simp [hne]

/-- The serialized text of a section with an unwrapped name is the
concatenation of its raw lines. -/
theorem sectionStr_short (s : PySection) (hlen : s.name.length ≤ 66) :
    sectionStr s = (str "Name: " ++ s.name ++ [ '\n' ]) ++
      (str "Digest-Algorithms:" ++ algosLine s.digests ++ [ '\n' ]) ++
      digestLines s.digests := by
  rw [sectionStr, chunks72_short (str "Name: " ++ s.name) (by simp [str])
    (by rw [List.length_append, show (str "Name: ").length = 6 from rfl]; omega)]
  simp [List.intercalate]

/-- Reading two newline-terminated lines. -/
theorem pyReadlines_block2 (A B rest : Str) (hA : '\n' ∉ A) (hB : '\n' ∉ B) :
    pyReadlines ((A ++ [ '\n' ]) ++ (B ++ [ '\n' ]) ++ [] ++ rest) =
      (A ++ [ '\n' ]) :: (B ++ [ '\n' ]) :: pyReadlines rest := by
  rw [show (A ++ [ '\n' ]) ++ (B ++ [ '\n' ]) ++ [] ++ rest =
    A ++ '\n' :: (B ++ '\n' :: rest) by simp]
  rw [pyReadlines_cons_line _ _ hA, pyReadlines_cons_line _ _ hB]

/-- Reading three newline-terminated lines. -/
theorem pyReadlines_block3 (A B C rest : Str) (hA : '\n' ∉ A) (hB : '\n' ∉ B)
    (hC : '\n' ∉ C) :
    pyReadlines ((A ++ [ '\n' ]) ++ (B ++ [ '\n' ]) ++ (C ++ [ '\n' ]) ++ rest) =
      (A ++ [ '\n' ]) :: (B ++ [ '\n' ]) :: (C ++ [ '\n' ]) :: pyReadlines rest := by
  rw [show (A ++ [ '\n' ]) ++ (B ++ [ '\n' ]) ++ (C ++ [ '\n' ]) ++ rest =
    A ++ '\n' :: (B ++ '\n' :: (C ++ '\n' :: rest)) by simp]
  rw [pyReadlines_cons_line _ _ hA, pyReadlines_cons_line _ _ hB,
    pyReadlines_cons_line _ _ hC]

/-- Reading four newline-terminated lines. -/
theorem pyReadlines_block4 (A B C D rest : Str) (hA : '\n' ∉ A) (hB : '\n' ∉ B)
    (hC : '\n' ∉ C) (hD : '\n' ∉ D) :
    pyReadlines ((A ++ [ '\n' ]) ++ (B ++ [ '\n' ]) ++
      ((C ++ [ '\n' ]) ++ (D ++ [ '\n' ])) ++ rest) =
      (A ++ [ '\n' ]) :: (B ++ [ '\n' ]) :: (C ++ [ '\n' ]) :: (D ++ [ '\n' ]) ::
        pyReadlines rest := by
  rw [show (A ++ [ '\n' ]) ++ (B ++ [ '\n' ]) ++ ((C ++ [ '\n' ]) ++ (D ++ [ '\n' ])) ++ rest =
    A ++ '\n' :: (B ++ '\n' :: (C ++ '\n' :: (D ++ '\n' :: rest))) by simp]
  rw [pyReadlines_cons_line _ _ hA, pyReadlines_cons_line _ _ hB,
    pyReadlines_cons_line _ _ hC, pyReadlines_cons_line _ _ hD]

/-- The raw-line decomposition of a serialized canonical section
followed by further text. -/
theorem readlines_section (s : PySection) (hc : canonSection s = true) (rest : Str) :
    pyReadlines (sectionStr s ++ rest) = sectionLines s ++ pyReadlines rest := by
  obtain ⟨nm, ags, md, sh⟩ := s
  rw [canonSection] at hc
  simp only [Bool.and_eq_true] at hc
  obtain ⟨⟨hcn, hcm⟩, hcs⟩ := hc
  obtain ⟨hne, hdw, hlast, hsep, hlen66, hnl⟩ := canonName_spec nm hcn
  have hnl1 : '\n' ∉ str "Name: " ++ nm := by
    intro hmem
    rcases List.mem_append.1 hmem with hm | hm
    · simp [str] at hm
    · exact hnl hm
  rw [sectionStr_short _ hlen66]
  cases md with
  | none =>
    cases sh with
    | none =>
      rw [show str "Digest-Algorithms:" ++ algosLine ⟨none, none⟩ =
        str "Digest-Algorithms:" from rfl]
      rw [show digestLines (⟨none, none⟩ : DigRec) = [] from rfl]
      rw [pyReadlines_block2 _ _ _ hnl1 (by simp [str])]
      rfl
    | some b2 =>
      have hv2 : ∀ x ∈ b2, x < 256 := by
        simp only [canonDigVal, Bool.and_eq_true, List.all_eq_true, decide_eq_true_eq] at hcs
        exact fun x hx => hcs.1.2 x hx
      rw [show str "Digest-Algorithms:" ++ algosLine ⟨none, some b2⟩ =
        str "Digest-Algorithms: SHA1" from rfl]
      rw [show digestLines (⟨none, some b2⟩ : DigRec) =
        (str "SHA1-Digest: " ++ b64encode b2) ++ [ '\n' ] from by simp [digestLines]]
      rw [pyReadlines_block3 _ _ _ _ hnl1 (by simp [str]) (by
        intro hmem
        rcases List.mem_append.1 hmem with hm | hm
        · simp [str] at hm
        · exact noNL_b64encode b2 hv2 hm)]
      rfl
  | some b1 =>
    have hv1 : ∀ x ∈ b1, x < 256 := by
      simp only [canonDigVal, Bool.and_eq_true, List.all_eq_true, decide_eq_true_eq] at hcm
      exact fun x hx => hcm.1.2 x hx
    cases sh with
    | none =>
      rw [show str "Digest-Algorithms:" ++ algosLine ⟨some b1, none⟩ =
        str "Digest-Algorithms: MD5" from rfl]
      rw [show digestLines (⟨some b1, none⟩ : DigRec) =
        (str "MD5-Digest: " ++ b64encode b1) ++ [ '\n' ] from by simp [digestLines]]
      rw [pyReadlines_block3 _ _ _ _ hnl1 (by simp [str]) (by
        intro hmem
        rcases List.mem_append.1 hmem with hm | hm
        · simp [str] at hm
        · exact noNL_b64encode b1 hv1 hm)]
      rfl
    | some b2 =>
      have hv2 : ∀ x ∈ b2, x < 256 := by
        simp only [canonDigVal, Bool.and_eq_true, List.all_eq_true, decide_eq_true_eq] at hcs
        exact fun x hx => hcs.1.2 x hx
      rw [show str "Digest-Algorithms:" ++ algosLine ⟨some b1, some b2⟩ =
        str "Digest-Algorithms: MD5 SHA1" from rfl]
      rw [show digestLines (⟨some b1, some b2⟩ : DigRec) =
        ((str "MD5-Digest: " ++ b64encode b1) ++ [ '\n' ]) ++
          ((str "SHA1-Digest: " ++ b64encode b2) ++ [ '\n' ]) from by simp [digestLines]]
      rw [pyReadlines_block4 _ _ _ _ _ hnl1 (by simp [str]) (by
        intro hmem
        rcases List.mem_append.1 hmem with hm | hm
        · simp [str] at hm
        · exact noNL_b64encode b1 hv1 hm) (by
        intro hmem
        rcases List.mem_append.1 hmem with hm | hm
        · simp [str] at hm
        · exact noNL_b64encode b2 hv2 hm)]
      rfl

/-- The usable content of the canonical-digest predicate. -/
theorem canonDigVal_spec (b : Bytes) (h : canonDigVal (some b) = true) :
    b ≠ [] ∧ (∀ x ∈ b, x < 256) ∧ b.length ≤ 42 := by
  simp only [canonDigVal, Bool.and_eq_true, Bool.not_eq_true', decide_eq_false_iff_not,
    decide_eq_true_eq, List.all_eq_true, and_assoc] at h
  exact ⟨h.1, fun x hx => h.2.1 x hx, h.2.2⟩

/-- Parsing the serialized lines of one canonical section followed by a
blank line accretes exactly that section (with the algos field rebuilt
from the Digest-Algorithms line) and returns to a neutral state. -/
theorem parseLines_section (s : PySection) (hc : canonSection s = true) (st : PState)
    (hitem : st.item = itemEmpty) (rest : List Str) :
    parseLines st (sectionLines s ++ ([ '\n' ] :: rest)) =
      parseLines ⟨st.lineno + (sectionLines s).length + 1, st.kw,
        st.items ++ [normSec s], itemEmpty, []⟩ rest := by
  obtain ⟨nm, ags, md, sh⟩ := s
  obtain ⟨ln, kw, items, item, hd⟩ := st
  simp only at hitem
  subst hitem
  rw [canonSection] at hc
  simp only [Bool.and_eq_true] at hc
  obtain ⟨⟨hcn, hcm⟩, hcs⟩ := hc
  cases md with
  | none =>
    cases sh with
    | none =>
      rw [show sectionLines ⟨nm, ags, ⟨none, none⟩⟩ =
        [str "Name: " ++ nm ++ [ '\n' ], str "Digest-Algorithms:" ++ [ '\n' ]] from rfl]
      rw [List.cons_append, List.cons_append, List.nil_append]
      rw [parseLines_cons_ok _ _ _ _ (parseLine_nameLine _ nm hcn)]
      rw [parseLines_cons_ok _ _ _ _ (parseLine_da_none _)]
      rw [parseLines_cons_ok _ _ _ _ (parseLine_blank_flush _ nm rfl)]
      rfl
    | some b2 =>
      obtain ⟨hb2, hv2, h42⟩ := canonDigVal_spec b2 hcs
      rw [show sectionLines ⟨nm, ags, ⟨none, some b2⟩⟩ =
        [str "Name: " ++ nm ++ [ '\n' ], str "Digest-Algorithms: SHA1" ++ [ '\n' ],
         str "SHA1-Digest: " ++ b64encode b2 ++ [ '\n' ]] from by
          simp [sectionLines, digestLinesList, algosLine, str]]
      rw [List.cons_append, List.cons_append, List.cons_append, List.nil_append]
      rw [parseLines_cons_ok _ _ _ _ (parseLine_nameLine _ nm hcn)]
      rw [parseLines_cons_ok _ _ _ _ (parseLine_da_sha1 _)]
      rw [parseLines_cons_ok _ _ _ _ (parseLine_sha1Line _ b2 hv2 hb2 h42)]
      rw [parseLines_cons_ok _ _ _ _ (parseLine_blank_flush _ nm rfl)]
      rfl
  | some b1 =>
    obtain ⟨hb1, hv1, h41⟩ := canonDigVal_spec b1 hcm
    cases sh with
    | none =>
      rw [show sectionLines ⟨nm, ags, ⟨some b1, none⟩⟩ =
        [str "Name: " ++ nm ++ [ '\n' ], str "Digest-Algorithms: MD5" ++ [ '\n' ],
         str "MD5-Digest: " ++ b64encode b1 ++ [ '\n' ]] from by
          simp [sectionLines, digestLinesList, algosLine, str]]
      rw [List.cons_append, List.cons_append, List.cons_append, List.nil_append]
      rw [parseLines_cons_ok _ _ _ _ (parseLine_nameLine _ nm hcn)]
      rw [parseLines_cons_ok _ _ _ _ (parseLine_da_md5 _)]
      rw [parseLines_cons_ok _ _ _ _ (parseLine_md5Line _ b1 hv1 hb1 h41)]
      rw [parseLines_cons_ok _ _ _ _ (parseLine_blank_flush _ nm rfl)]
      rfl
    | some b2 =>
      obtain ⟨hb2, hv2, h42⟩ := canonDigVal_spec b2 hcs
      rw [show sectionLines ⟨nm, ags, ⟨some b1, some b2⟩⟩ =
        [str "Name: " ++ nm ++ [ '\n' ], str "Digest-Algorithms: MD5 SHA1" ++ [ '\n' ],
         str "MD5-Digest: " ++ b64encode b1 ++ [ '\n' ],
         str "SHA1-Digest: " ++ b64encode b2 ++ [ '\n' ]] from by
          simp [sectionLines, digestLinesList, algosLine, str]]
      rw [List.cons_append, List.cons_append, List.cons_append, List.cons_append,
        List.nil_append]
      rw [parseLines_cons_ok _ _ _ _ (parseLine_nameLine _ nm hcn)]
      rw [parseLines_cons_ok _ _ _ _ (parseLine_da_both _)]
      rw [parseLines_cons_ok _ _ _ _ (parseLine_md5Line _ b1 hv1 hb1 h41)]
      rw [parseLines_cons_ok _ _ _ _ (parseLine_sha1Line _ b2 hv2 hb2 h42)]
      rw [parseLines_cons_ok _ _ _ _ (parseLine_blank_flush _ nm rfl)]
      rfl

/-- Joining one segment. -/
theorem pyJoinNl_single (x : Str) : pyJoinNl [x] = x := by
  simp [pyJoinNl, List.intercalate]

/-- Joining at least two segments. -/
theorem pyJoinNl_cons_cons (x y : Str) (l : List Str) :
    pyJoinNl (x :: y :: l) = x ++ '\n' :: pyJoinNl (y :: l) := by
  simp [pyJoinNl, List.intercalate, List.intersperse]

/-- Reading a buffer that starts with a blank line. -/
theorem pyReadlines_nl_cons (x : Str) :
    pyReadlines ('\n' :: x) = [ '\n' ] :: pyReadlines x := by
  simp [pyReadlines]

/-- The body of a one-section manifest. -/
theorem manifestBody_single (s : PySection) : manifestBody [s] = sectionStr s := by
  simp [manifestBody, pyJoinNl_single]

/-- The body of a manifest with at least two sections. -/
theorem manifestBody_cons_cons (s s2 : PySection) (rest : List PySection) :
    manifestBody (s :: s2 :: rest) = sectionStr s ++ '\n' :: manifestBody (s2 :: rest) := by
  simp [manifestBody, pyJoinNl_cons_cons]

/-- Parsing the serialized body of a canonical manifest plus the two
appended blank lines accretes exactly the normalized sections. -/
theorem parseLines_body : ∀ (secs : List PySection),
    (∀ s ∈ secs, canonSection s = true) →
    ∀ st : PState, st.item = itemEmpty →
    ∃ n, parseLines st (pyReadlines (manifestBody secs) ++ [[ '\n' ], [ '\n' ]]) =
      .ok ⟨n, st.kw, st.items ++ secs.map normSec, itemEmpty, []⟩
  | [], _, st, hitem => by
    refine ⟨st.lineno + 2, ?_⟩
    rw [show manifestBody [] = [] from rfl]
    rw [show pyReadlines [] = [] from rfl, List.nil_append]
    rw [parseLines_cons_ok _ _ _ _ (parseLine_blank_empty st hitem)]
    rw [parseLines_cons_ok _ _ _ _ (parseLine_blank_empty _ rfl)]
    simp [parseLines]
  | [s], hc, st, hitem => by
    have hcs : canonSection s = true := hc s (by simp)
    refine ⟨st.lineno + (sectionLines s).length + 2, ?_⟩
    rw [manifestBody_single, ← List.append_nil (sectionStr s), readlines_section s hcs]
    rw [show pyReadlines [] = [] from rfl, List.append_nil]
    rw [show sectionLines s ++ [[ '\n' ], [ '\n' ]] =
      sectionLines s ++ ([ '\n' ] :: [[ '\n' ]]) from rfl]
    rw [parseLines_section s hcs st hitem]
    rw [parseLines_cons_ok _ _ _ _ (parseLine_blank_empty _ rfl)]
    simp [parseLines]
  | s :: s2 :: rest2, hc, st, hitem => by
    have hcs : canonSection s = true := hc s (by simp)
    obtain ⟨n, hn⟩ := parseLines_body (s2 :: rest2)
      (fun x hx => hc x (by simp [hx]))
      ⟨st.lineno + (sectionLines s).length + 1, st.kw,
        st.items ++ [normSec s], itemEmpty, []⟩ rfl
    refine ⟨n, ?_⟩
    rw [manifestBody_cons_cons, readlines_section s hcs, pyReadlines_nl_cons]
    rw [show (sectionLines s ++ [ '\n' ] :: pyReadlines (manifestBody (s2 :: rest2))) ++
        [[ '\n' ], [ '\n' ]] =
      sectionLines s ++ ([ '\n' ] ::
        (pyReadlines (manifestBody (s2 :: rest2)) ++ [[ '\n' ], [ '\n' ]])) by simp]
    rw [parseLines_section s hcs st hitem, hn]
    simp

/-- Serialization ignores the algos field, so a section and its parsed
normalization serialize identically. -/
theorem sectionStr_normSec (s : PySection) : sectionStr (normSec s) = sectionStr s := rfl

/-- The body of the normalized sections is the original body. -/
theorem manifestBody_normSec (secs : List PySection) :
    manifestBody (secs.map normSec) = manifestBody secs := by
  simp only [manifestBody, List.map_map]
  rfl

/-- C1 amended: for every Manifest built from canonical sections (names
nonempty, unwrapped, whitespace-clean, not directory-like; digest values
nonempty genuine bytes of at most 42 bytes) with no extra trailing
newline, Manifest.parse succeeds on the serialized text and serializing
the parse result yields exactly the original text. -/
theorem c1_roundtrip_canonical (secs : List PySection)
    (hc : ∀ s ∈ secs, canonSection s = true) :
    Except.map pManifestStr (manifestParse (manifestStr secs false)) =
      .ok (manifestStr secs false) := by
  have hsplit : manifestStr secs false =
      str "Manifest-Version: 1.0" ++ '\n' :: '\n' :: manifestBody secs := by
    simp [manifestStr, pyJoinNl_cons_cons, pyJoinNl_single]
  obtain ⟨n, hn⟩ := parseLines_body secs hc ⟨2, none, [], itemEmpty, []⟩ rfl
  have hparse : manifestParse (manifestStr secs false) = .ok ⟨secs.map normSec, none⟩ := by
    unfold manifestParse parseInputLines
    rw [hsplit, pyReadlines_cons_line _ _ (by decide), pyReadlines_nl_cons]
    rw [show ((str "Manifest-Version: 1.0" ++ [ '\n' ]) :: [ '\n' ] ::
        pyReadlines (manifestBody secs)) ++ [[ '\n' ], [ '\n' ]] =
      (str "Manifest-Version: 1.0" ++ [ '\n' ]) :: [ '\n' ] ::
        (pyReadlines (manifestBody secs) ++ [[ '\n' ], [ '\n' ]]) by simp]
    rw [parseLines_cons_ok _ _ _ _ (parseLine_version initPState)]
    rw [parseLines_cons_ok _ _ _ _ (parseLine_blank_empty _ rfl)]
    simp only [initPState]
    rw [hn]
    simp
  rw [hparse]
  rw [show Except.map pManifestStr (Except.ok (⟨secs.map normSec, none⟩ : PManifest)) =
    Except.ok (pManifestStr ⟨secs.map normSec, none⟩) from rfl]
  rw [show pManifestStr ⟨secs.map normSec, none⟩ =
    manifestStr (secs.map normSec) false from rfl]
  rw [show manifestStr (secs.map normSec) false =
    pyJoinNl [str "Manifest-Version: 1.0", [], manifestBody (secs.map normSec)] from rfl]
  rw [manifestBody_normSec]
  rfl

/-- C1 amended witness: a concrete canonical manifest with one section
round-trips byte for byte. -/
theorem c1_roundtrip_canonical_witness :
    Except.map pManifestStr
      (manifestParse (manifestStr [⟨str "test-file", [str "md5", str "sha1"],
        ⟨some [1, 2, 3, 4], some [5, 6, 7]⟩⟩] false)) =
      .ok (manifestStr [⟨str "test-file", [str "md5", str "sha1"],
        ⟨some [1, 2, 3, 4], some [5, 6, 7]⟩⟩] false) :=
  c1_roundtrip_canonical _ (by decide)

/-- The header dispatch either succeeds with the given line number or
fails with the base64 error. -/
theorem parseHeaderLine_cases (st : PState) (n : Nat) (h v : Str) :
    (∃ st2, parseHeaderLine st n h v = .ok st2 ∧ st2.lineno = n) ∨
      parseHeaderLine st n h v = .error .b64Err := by
  by_cases h1 : strEndsWith h (str "-version") = true
  · exact Or.inl ⟨⟨n, st.kw, st.items, st.item, h⟩,
      by unfold parseHeaderLine; rw [if_pos h1], rfl⟩
  · by_cases h2 : strEndsWith h (str "-digest-manifest") = true
    · cases hb : pyB64decode v with
      | none =>
        right
        unfold parseHeaderLine
        rw [if_neg h1, if_pos h2, hb]
      | some bs =>
        exact Or.inl ⟨⟨n, some (setDig (st.kw.getD ⟨none, none⟩) (h.take (h.length - 16)) bs),
            st.items, st.item, h⟩,
          by unfold parseHeaderLine; rw [if_neg h1, if_pos h2, hb], rfl⟩
    · by_cases h3 : h = str "name"
      · by_cases h4 : endsInSep v = true
        · exact Or.inl ⟨⟨n, st.kw, st.items, st.item, h⟩,
            by unfold parseHeaderLine; rw [if_neg h1, if_neg h2, if_pos h3, if_pos h4], rfl⟩
        · exact Or.inl ⟨⟨n, st.kw, st.items, ⟨some v, st.item.algosF, st.item.digestsF⟩, h⟩,
            by unfold parseHeaderLine; rw [if_neg h1, if_neg h2, if_pos h3, if_neg h4], rfl⟩
      · by_cases h5 : h = str "digest-algorithms"
        · exact Or.inl ⟨⟨n, st.kw, st.items,
              ⟨st.item.nameF, some (pySplitWs (pyLowerStr v)), st.item.digestsF⟩, h⟩,
            by unfold parseHeaderLine; rw [if_neg h1, if_neg h2, if_neg h3, if_pos h5], rfl⟩
        · cases hb : pyB64decode v with
          | none =>
            right
            unfold parseHeaderLine
            rw [if_neg h1, if_neg h2, if_neg h3, if_neg h5, hb]
          | some bs =>
            exact Or.inl ⟨⟨n, st.kw, st.items,
                ⟨st.item.nameF, st.item.algosF,
                 some (setDig (st.item.digestsF.getD ⟨none, none⟩) (h.take (h.length - 7)) bs)⟩, h⟩,
              by unfold parseHeaderLine; rw [if_neg h1, if_neg h2, if_neg h3, if_neg h5, hb], rfl⟩

/-- Exhaustive classification of one line step: the only abnormal
outcomes are the three ParsingError raises (each tied to the shape of
the stripped line and carrying the incremented line number), the
KeyError of a non-continuable header or of a flush without a name, and
the base64 error; every successful outcome increments the line
counter. -/
theorem parseLine_shape (st : PState) (raw : Str) :
    (parseLine st raw = .error (.tooLong (st.lineno + 1)) ∧ 72 < (rstrip raw).length) ∨
    ((rstrip raw).length ≤ 72 ∧
      ((parseLine st raw = .error (.contNoHeader (st.lineno + 1)) ∧
          (rstrip raw).head? = some ' ') ∨
       (parseLine st raw = .error (.unrecognized (rstrip raw)) ∧ rstrip raw ≠ [] ∧
          (rstrip raw).head? ≠ some ' ' ∧ matchHeader (rstrip raw) = none) ∨
       parseLine st raw = .error .keyErr ∨
       parseLine st raw = .error .b64Err ∨
       (∃ st2, parseLine st raw = .ok st2 ∧ st2.lineno = st.lineno + 1))) := by
  by_cases h1 : 72 < (rstrip raw).length
  · exact Or.inl ⟨by unfold parseLine; rw [if_pos h1], h1⟩
  · refine Or.inr ⟨by omega, ?_⟩
    by_cases h2 : rstrip raw = []
    · cases hni : itemNonempty st.item with
      | false =>
        refine Or.inr (Or.inr (Or.inr (Or.inr
          ⟨⟨st.lineno + 1, st.kw, st.items, st.item, []⟩, ?_, rfl⟩)))
        unfold parseLine
        rw [if_neg h1, if_pos h2, hni]
        rfl
      | true =>
        cases hnf : st.item.nameF with
        | none =>
          refine Or.inr (Or.inr (Or.inl ?_))
          unfold parseLine
          rw [if_neg h1, if_pos h2, hni, hnf]
          rfl
        | some nm =>
          refine Or.inr (Or.inr (Or.inr (Or.inr
            ⟨⟨st.lineno + 1, st.kw, st.items ++ [mkSec nm st.item], itemEmpty, []⟩, ?_, rfl⟩)))
          unfold parseLine
          rw [if_neg h1, if_pos h2, hni, hnf]
          rfl
    · by_cases h3 : (rstrip raw).head? = some ' '
      · by_cases h4 : st.header = []
        · refine Or.inl ⟨?_, h3⟩
          unfold parseLine
          rw [if_neg h1, if_neg h2, if_pos h3, if_pos h4]
        · by_cases h5 : st.header = str "name"
          · cases hnf : st.item.nameF with
            | none =>
              refine Or.inr (Or.inr (Or.inl ?_))
              unfold parseLine
              rw [if_neg h1, if_neg h2, if_pos h3, if_neg h4, if_pos h5, hnf]
            | some nm =>
              refine Or.inr (Or.inr (Or.inr (Or.inr
                ⟨⟨st.lineno + 1, st.kw, st.items,
                  ⟨some (nm ++ (rstrip raw).tail), st.item.algosF, st.item.digestsF⟩,
                  st.header⟩, ?_, rfl⟩)))
              unfold parseLine
              rw [if_neg h1, if_neg h2, if_pos h3, if_neg h4, if_pos h5, hnf]
          · refine Or.inr (Or.inr (Or.inl ?_))
            unfold parseLine
            rw [if_neg h1, if_neg h2, if_pos h3, if_neg h4, if_neg h5]
      · cases hmh : matchHeader (rstrip raw) with
        | none =>
          refine Or.inr (Or.inl ⟨?_, h2, h3, rfl⟩)
          unfold parseLine
          rw [if_neg h1, if_neg h2, if_neg h3, hmh]
        | some pr =>
          obtain ⟨hh, vv⟩ := pr
          have hpl : parseLine st raw = parseHeaderLine st (st.lineno + 1) hh vv := by
            unfold parseLine
            rw [if_neg h1, if_neg h2, if_neg h3, hmh]
          rcases parseHeaderLine_cases st (st.lineno + 1) hh vv with ⟨st3, h3', hl3⟩ | h3'
          · exact Or.inr (Or.inr (Or.inr (Or.inr ⟨st3, hpl.trans h3', hl3⟩)))
          · exact Or.inr (Or.inr (Or.inr (Or.inl (hpl.trans h3'))))

/-- A successful line step increments the line counter. -/
theorem parseLine_ok_lineno (st st2 : PState) (raw : Str)
    (h : parseLine st raw = .ok st2) : st2.lineno = st.lineno + 1 := by
  rcases parseLine_shape st raw with ⟨he, _⟩ |
    ⟨_, ⟨he, _⟩ | ⟨he, _⟩ | he | he | ⟨st3, he, hl3⟩⟩ <;> rw [he] at h <;> try cases h
  exact hl3

/-- A successful line step saw a stripped line within the limit. -/
theorem parseLine_ok_short (st st2 : PState) (raw : Str)
    (h : parseLine st raw = .ok st2) : (rstrip raw).length ≤ 72 := by
  rcases parseLine_shape st raw with ⟨he, _⟩ | ⟨hlen, _⟩
  · rw [he] at h
    cases h
  · exact hlen

/-- Inversion of the line-too-long error. -/
theorem parseLine_tooLong (st : PState) (raw : Str) (n : Nat)
    (h : parseLine st raw = .error (.tooLong n)) :
    n = st.lineno + 1 ∧ 72 < (rstrip raw).length := by
  rcases parseLine_shape st raw with ⟨he, hl⟩ |
    ⟨_, ⟨he, _⟩ | ⟨he, _⟩ | he | he | ⟨st3, he, _⟩⟩ <;> rw [he] at h <;> try cases h
  exact ⟨rfl, hl⟩

/-- Inversion of the continuation-without-header error. -/
theorem parseLine_contNoHeader (st : PState) (raw : Str) (n : Nat)
    (h : parseLine st raw = .error (.contNoHeader n)) :
    n = st.lineno + 1 ∧ (rstrip raw).length ≤ 72 ∧ (rstrip raw).head? = some ' ' := by
  rcases parseLine_shape st raw with ⟨he, _⟩ |
    ⟨hlen, ⟨he, hsp⟩ | ⟨he, _⟩ | he | he | ⟨st3, he, _⟩⟩ <;> rw [he] at h <;> try cases h
  exact ⟨rfl, hlen, hsp⟩

/-- Inversion of the unrecognized-line error. -/
theorem parseLine_unrecognized_inv (st : PState) (raw : Str) (l : Str)
    (h : parseLine st raw = .error (.unrecognized l)) :
    l = rstrip raw ∧ l ≠ [] ∧ l.length ≤ 72 ∧ l.head? ≠ some ' ' ∧
      matchHeader l = none := by
  rcases parseLine_shape st raw with ⟨he, _⟩ |
    ⟨hlen, ⟨he, _⟩ | ⟨he, hne, hhd, hmh⟩ | he | he | ⟨st3, he, _⟩⟩ <;>
      rw [he] at h <;> try cases h
  exact ⟨rfl, hne, hlen, hhd, hmh⟩

/-- When the line loop completes, every line it consumed was within the
72-character limit after stripping. -/
theorem parseLines_ok_all_short : ∀ (ls : List Str) (st st2 : PState),
    parseLines st ls = .ok st2 → ∀ raw ∈ ls, (rstrip raw).length ≤ 72
  | [], _, _, _, raw, hmem => absurd hmem (List.not_mem_nil raw)
  | l :: ls, st, st2, h, raw, hmem => by
    cases hpl : parseLine st l with
    | error e =>
      rw [parseLines_cons_error st e l ls hpl] at h
      cases h
    | ok stm =>
      rw [parseLines_cons_ok st stm l ls hpl] at h
      rcases List.mem_cons.1 hmem with rfl | hm
      · exact parseLine_ok_short st stm raw hpl
      · exact parseLines_ok_all_short ls stm st2 h raw hm

/-- A line-too-long abort of the loop identifies an over-long line at
the reported (relative) line number. -/
theorem parseLines_tooLong_spec : ∀ (ls : List Str) (st : PState) (n : Nat),
    parseLines st ls = .error (.tooLong n) →
    ∃ i, i < ls.length ∧ n = st.lineno + i + 1 ∧ 72 < (rstrip (ls.getD i [])).length
  | [], st, n, h => by simp [parseLines] at h
  | l :: ls, st, n, h => by
    cases hpl : parseLine st l with
    | error e =>
      rw [parseLines_cons_error st e l ls hpl] at h
      injection h with he
      subst he
      obtain ⟨hn, hlong⟩ := parseLine_tooLong st l n hpl
      exact ⟨0, by simp, by omega, by simpa using hlong⟩
    | ok stm =>
      rw [parseLines_cons_ok st stm l ls hpl] at h
      obtain ⟨i, hi, hn, hlong⟩ := parseLines_tooLong_spec ls stm n h
      have hl := parseLine_ok_lineno st stm l hpl
      exact ⟨i + 1, by simpa using hi, by omega, by simpa using hlong⟩

/-- A continuation-without-header abort identifies a continuation line
within the limit at the reported (relative) line number. -/
theorem parseLines_contNoHeader_spec : ∀ (ls : List Str) (st : PState) (n : Nat),
    parseLines st ls = .error (.contNoHeader n) →
    ∃ i, i < ls.length ∧ n = st.lineno + i + 1 ∧
      (rstrip (ls.getD i [])).length ≤ 72 ∧ (rstrip (ls.getD i [])).head? = some ' '
  | [], st, n, h => by simp [parseLines] at h
  | l :: ls, st, n, h => by
    cases hpl : parseLine st l with
    | error e =>
      rw [parseLines_cons_error st e l ls hpl] at h
      injection h with he
      subst he
      obtain ⟨hn, hlen, hsp⟩ := parseLine_contNoHeader st l n hpl
      exact ⟨0, by simp, by omega, by simpa using hlen, by simpa using hsp⟩
    | ok stm =>
      rw [parseLines_cons_ok st stm l ls hpl] at h
      obtain ⟨i, hi, hn, hlen, hsp⟩ := parseLines_contNoHeader_spec ls stm n h
      have hl := parseLine_ok_lineno st stm l hpl
      exact ⟨i + 1, by simpa using hi, by omega, by simpa using hlen, by simpa using hsp⟩

/-- An unrecognized-line abort carries a stripped input line that is
nonblank, within the limit, no continuation and matches no header. -/
theorem parseLines_unrecognized_spec : ∀ (ls : List Str) (st : PState) (l : Str),
    parseLines st ls = .error (.unrecognized l) →
    (∃ i, i < ls.length ∧ l = rstrip (ls.getD i [])) ∧
      l ≠ [] ∧ l.length ≤ 72 ∧ l.head? ≠ some ' ' ∧ matchHeader l = none
  | [], st, l, h => by simp [parseLines] at h
  | lr :: ls, st, l, h => by
    cases hpl : parseLine st lr with
    | error e =>
      rw [parseLines_cons_error st e lr ls hpl] at h
      injection h with he
      subst he
      obtain ⟨hl, hne, hlen, hhd, hmh⟩ := parseLine_unrecognized_inv st lr l hpl
      exact ⟨⟨0, by simp, by simpa using hl⟩, hne, hlen, hhd, hmh⟩
    | ok stm =>
      rw [parseLines_cons_ok st stm lr ls hpl] at h
      obtain ⟨⟨i, hi, hl⟩, hne, hlen, hhd, hmh⟩ := parseLines_unrecognized_spec ls stm l h
      exact ⟨⟨i + 1, by simpa using hi, by simpa using hl⟩, hne, hlen, hhd, hmh⟩

/-- Inversion of a successful Manifest.parse down to the line loop. -/
theorem manifestParse_ok_inv (buf : Str) (p : PManifest)
    (h : manifestParse buf = .ok p) :
    ∃ st2, parseLines initPState (parseInputLines buf) = .ok st2 := by
  unfold manifestParse at h
  cases hp : parseLines initPState (parseInputLines buf) with
  | error e =>
    rw [hp] at h
    cases h
  | ok st => exact ⟨st, rfl⟩

/-- Inversion of a failed Manifest.parse down to the line loop. -/
theorem manifestParse_error_inv (buf : Str) (e : PErr)
    (h : manifestParse buf = .error e) :
    parseLines initPState (parseInputLines buf) = .error e := by
  unfold manifestParse at h
  cases hp : parseLines initPState (parseInputLines buf) with
  | error e2 =>
    rw [hp] at h
    injection h with he
    subst he
    rfl
  | ok st =>
    rw [hp] at h
    cases h

/-- C3 amended: Manifest.parse never returns a Manifest when any input
line exceeds 72 characters after trailing-whitespace stripping, and each
of the three ParsingError raises accurately describes its offending
input line, with the line-too-long and continuation-without-header
errors reporting the 1-based number of that line; however a continuation
of a non-Name header, a continuation after a dropped directory name, a
digest-bearing section whose only Name was a dropped directory name, or
an undecodable base64 value aborts the parse with a non-ParsingError
exception (KeyError or TypeError), which can preempt a later
ParsingError condition, so the claimed equivalence holds only for the
first anomaly of the input rather than for the presence of an offending
line anywhere in it. -/
theorem c3_parse_error_characterization (buf : Str) :
    (∀ p : PManifest, manifestParse buf = .ok p →
      ∀ raw ∈ parseInputLines buf, (rstrip raw).length ≤ 72) ∧
    (∀ n : Nat, manifestParse buf = .error (.tooLong n) →
      1 ≤ n ∧ n ≤ (parseInputLines buf).length ∧
        72 < (rstrip (nthRawLine buf n)).length) ∧
    (∀ n : Nat, manifestParse buf = .error (.contNoHeader n) →
      1 ≤ n ∧ n ≤ (parseInputLines buf).length ∧
        (rstrip (nthRawLine buf n)).length ≤ 72 ∧
        (rstrip (nthRawLine buf n)).head? = some ' ') ∧
    (∀ l : Str, manifestParse buf = .error (.unrecognized l) →
      (∃ i, i < (parseInputLines buf).length ∧
        l = rstrip ((parseInputLines buf).getD i [])) ∧
        l ≠ [] ∧ l.length ≤ 72 ∧ l.head? ≠ some ' ' ∧ matchHeader l = none) ∧
    ((∃ raw ∈ parseInputLines buf, 72 < (rstrip raw).length) →
      ∀ p : PManifest, manifestParse buf ≠ .ok p) := by
  refine ⟨?_, ?_, ?_, ?_, ?_⟩
  · intro p hp raw hmem
    obtain ⟨st2, h2⟩ := manifestParse_ok_inv buf p hp
    exact parseLines_ok_all_short _ _ _ h2 raw hmem
  · intro n hn
    obtain ⟨i, hi, hni, hlong⟩ :=
      parseLines_tooLong_spec _ _ _ (manifestParse_error_inv buf _ hn)
    have hni2 : n = i + 1 := by
      simpa [initPState] using hni
    refine ⟨by omega, by omega, ?_⟩
    rw [nthRawLine, show n - 1 = i from by omega]
    exact hlong
  · intro n hn
    obtain ⟨i, hi, hni, hlen, hsp⟩ :=
      parseLines_contNoHeader_spec _ _ _ (manifestParse_error_inv buf _ hn)
    have hni2 : n = i + 1 := by
      simpa [initPState] using hni
    refine ⟨by omega, by omega, ?_, ?_⟩
    · rw [nthRawLine, show n - 1 = i from by omega]
      exact hlen
    · rw [nthRawLine, show n - 1 = i from by omega]
      exact hsp
  · intro l hl
    exact parseLines_unrecognized_spec _ _ _ (manifestParse_error_inv buf _ hl)
  · rintro ⟨raw, hmem, hlong⟩ p hp
    have := (parseLines_ok_all_short _ _ _
      (manifestParse_ok_inv buf p hp).choose_spec raw hmem)
    omega

/-- C3 amended witness: a single line of eighty exclamation marks makes
Manifest.parse raise the line-too-long ParsingError at line one, and the
reported line is indeed over the limit. -/
theorem c3_parse_error_characterization_witness :
    1 ≤ 1 ∧ 1 ≤ (parseInputLines (List.replicate 80 '!')).length ∧
      72 < (rstrip (nthRawLine (List.replicate 80 '!') 1)).length :=
  (c3_parse_error_characterization (List.replicate 80 '!')).2.1 1 rfl

/-- Membership through the stable insertion. -/
theorem mem_insByFileKey : ∀ (l : List (Str × Str)) (x y : Str × Str),
    y ∈ insByFileKey x l → y = x ∨ y ∈ l
  | [], x, y, h => by
    simp [insByFileKey] at h
    exact Or.inl h
  | z :: t, x, y, h => by
    rw [insByFileKey] at h
    by_cases hk : strLt (file_key x.1) (file_key z.1) = true
    · rw [if_pos hk] at h
      rcases List.mem_cons.1 h with h1 | hm
      · exact Or.inl h1
      · exact Or.inr hm
    · rw [if_neg hk] at h
      rcases List.mem_cons.1 h with h1 | hm
      · exact Or.inr (h1 ▸ List.mem_cons_self z t)
      · rcases mem_insByFileKey t x y hm with h2 | h2
        · exact Or.inl h2
        · exact Or.inr (List.mem_cons_of_mem z h2)

/-- Membership through the stable sort. -/
theorem mem_sortByFileKey : ∀ (l : List (Str × Str)) (y : Str × Str),
    y ∈ sortByFileKey l → y ∈ l
  | [], y, h => by simp [sortByFileKey] at h
  | x :: t, y, h => by
    rw [sortByFileKey, List.foldr_cons] at h
    rcases mem_insByFileKey _ x y h with h1 | hm
    · exact h1 ▸ List.mem_cons_self x t
    · exact List.mem_cons_of_mem x (mem_sortByFileKey t y hm)

/-- C7 amended: the denylist exclusion of JarExtractor is glob matching
with the case sensitivity of POSIX fnmatch, so every Section derived
from an archive entry has a name that fails the (case-sensitive)
denylist; the only Section whose name can match the denylist is the
META-INF/ids.json Section appended for a supplied nonempty ids
payload. -/
theorem c7_denylist_amended (H : HashImpl) (files : List (Str × Str))
    (ids : Option Str) :
    ∀ s ∈ jarSections H files ids,
      ignore_certain_metainf_files s.name = false ∨
        (s.name = str "META-INF/ids.json" ∧ ∃ b, ids = some b ∧ b ≠ []) := by
  intro s hs
  unfold jarSections at hs
  rcases List.mem_append.1 hs with h | h
  · left
    obtain ⟨f, hf, hfs⟩ := List.mem_map.1 h
    obtain ⟨hmem, hcond⟩ := List.mem_filter.1 hf
    subst hfs
    rw [show (mksection H f.2 f.1).name = f.1 from rfl]
    simp only [Bool.not_eq_true', Bool.or_eq_false_iff] at hcond
    exact hcond.2
  · right
    cases ids with
    | none => simp at h
    | some b =>
      have h2 : s ∈ (if b = [] then [] else [mksection H b (str "META-INF/ids.json")]) := h
      by_cases hb : b = []
      · rw [if_pos hb] at h2
        simp at h2
      · rw [if_neg hb] at h2
        rcases List.mem_singleton.1 h2 with rfl
        exact ⟨rfl, b, rfl, hb⟩

/-- C7 amended witness: a plain entry passes the denylist and its
Section name fails every pattern. -/
theorem c7_denylist_amended_witness :
    ignore_certain_metainf_files (mksection hashZero [] (str "test-file")).name = false ∨
      ((mksection hashZero [] (str "test-file")).name = str "META-INF/ids.json" ∧
        ∃ b, (none : Option Str) = some b ∧ b ≠ []) :=
  c7_denylist_amended hashZero [(str "test-file", [])] none
    (mksection hashZero [] (str "test-file")) (by decide)

/-- A string whose last character is a path separator ends in one. -/
theorem endsInSep_true_of (s : Str) (c : Char) (h : s.getLast? = some c)
    (hc : c = '/' ∨ c = '\\') : endsInSep s = true := by
  unfold endsInSep
  rw [h]
  rcases hc with rfl | rfl <;> rfl

/-- C8 amended: a Name header whose value ends in a path separator is
dropped, and when no further recognized headers or continuations occur
in its section, Manifest.parse succeeds and the resulting Manifest has
no Section at all for that name; when digest headers or continuations
accompany the dropped name in the same section (with no retained Name
before it), parse instead aborts with a KeyError, not silently. -/
theorem c8_directory_name_dropped (w : Str) (c : Char)
    (hc : c = '/' ∨ c = '\\') (hlen : (w ++ [c]).length ≤ 66)
    (hnl : '\n' ∉ w ++ [c]) :
    manifestParse (str "Name: " ++ (w ++ [c]) ++ [ '\n' ]) = .ok ⟨[], none⟩ := by
  have hcs : pyIsSpaceB c = false := by
    rcases hc with rfl | rfl <;> rfl
  have hnl1 : '\n' ∉ str "Name: " ++ (w ++ [c]) := by
    intro hmem
    rcases List.mem_append.1 hmem with hm | hm
    · simp [str] at hm
    · exact hnl hm
  have hlast : (str "Name: " ++ (w ++ [c])).getLast? = some c := by
    rw [List.getLast?_append_of_ne_nil _ (by simp : w ++ [c] ≠ [])]
    exact List.getLast?_concat w
  have hr : rstrip (str "Name: " ++ (w ++ [c]) ++ [ '\n' ]) = str "Name: " ++ (w ++ [c]) := by
    rw [rstrip_append_nl]
    exact rstrip_eq_self_of_getLast _ c hlast hcs
  have hlh : (str "Name: " ++ (w ++ [c])).length = 6 + (w ++ [c]).length := by
    rw [List.length_append]
    rfl
  have hsep : endsInSep (List.dropWhile pyIsSpaceB (w ++ [c])) = true :=
    endsInSep_true_of _ c (getLast?_dropWhile_concat w c hcs) hc
  have hline : parseLine initPState (str "Name: " ++ (w ++ [c]) ++ [ '\n' ]) =
      .ok ⟨1, none, [], itemEmpty, str "name"⟩ := by
    rw [parseLine_of_header initPState _ _ _ hr (by omega) (by simp [str])
      (by rw [show (str "Name: " ++ (w ++ [c])).head? = some 'N' from rfl]; simp)
      (matchHeader_name (w ++ [c]))]
    exact parseHeaderLine_name_drop initPState _ _ hsep
  unfold manifestParse parseInputLines
  rw [show str "Name: " ++ (w ++ [c]) ++ [ '\n' ] =
    (str "Name: " ++ (w ++ [c])) ++ '\n' :: [] by simp]
  rw [pyReadlines_cons_line _ _ hnl1]
  simp only [show pyReadlines [] = [] from rfl, List.cons_append, List.nil_append]
  rw [parseLines_cons_ok _ _ _ _ hline]
  rfl

/-- C8 amended witness: a lone directory Name section parses to the
empty Manifest. -/
theorem c8_directory_name_dropped_witness :
    manifestParse (str "Name: " ++ (str "foo" ++ [ '/' ]) ++ [ '\n' ]) = .ok ⟨[], none⟩ :=
  c8_directory_name_dropped (str "foo") '/' (Or.inl rfl) (by decide) (by decide)
